import Mathlib

/-!
# Small drawing and measurement tool: the measurement scene

A shallow embedding of `src/CanvasScene.cpp` / `src/CanvasScene.h`.

* C++ `double` is an arbitrary linearly ordered field `K` (exact arithmetic); the
  theorems that need a real square root instantiate `K` with `ℝ`.
* The `<cmath>` functions (`std::sqrt`, `std::acos`, `std::atan2`) and the hit test of
  `QGraphicsScene::items(QRectF)` are library code; they are the fields of `Extern`.
* A `QGraphicsSimpleTextItem` is its text (a format together with the number printed) and
  its position; pens and brushes are not represented.
* Signals are appended to the `emitted` trace of the scene.
* NaN is represented where the angle tool can produce it: `std::acos` returns an optional
  number, and a label can be `nan°`.
* A `QGraphicsLineItem*` is the item it designates together with the line that item holds;
  the line of an item that can be selected never changes while it is selected.
* `loadImage` (pixmap loading) is not part of the model.
-/

namespace Measure

/-- The enumeration `ToolMode` of `CanvasScene.h`. -/
inductive ToolMode where
  | None
  | Line
  | Arc
  | Angle
  | Distance
deriving DecidableEq, Repr

/-- The two signals of `CanvasScene`. -/
inductive Signal where
  | messageChanged (msg : String)
  | modeChanged (mode : ToolMode)
deriving DecidableEq, Repr

/-- A `QPointF`. -/
structure QPointF (K : Type) where
  x : K
  y : K
deriving DecidableEq, Repr

/-- A `QLineF (p1, p2)`. -/
structure QLineF (K : Type) where
  p1 : QPointF K
  p2 : QPointF K
deriving DecidableEq, Repr

/-- A `QRectF (x, y, w, h)`. -/
structure QRectF (K : Type) where
  x : K
  y : K
  w : K
  h : K
deriving DecidableEq, Repr

/-- Library functions the scene calls: `<cmath>` and the Qt item hit test. -/
structure Extern (K : Type) where
  /-- The function `std::sqrt`. -/
  sqrt : K → K
  /-- The function `std::acos`; `none` is the NaN it returns for an argument outside
  [-1, 1]. -/
  acos : K → Option K
  /-- The function `std::atan2 (y, x)`. -/
  atan2 : K → K → K
  /-- Whether `QGraphicsScene::items (rect)` returns a line item with the given geometry. -/
  intersects : QRectF K → QLineF K → Bool

/-- One drawing command of a `QPainterPath`. -/
inductive PathElement (K : Type) where
  | moveTo (p : QPointF K)
  | lineTo (p : QPointF K)
  | arcMoveTo (rect : QRectF K) (angle : K)
  | arcTo (rect : QRectF K) (startAngle : K) (sweepLength : K)
deriving DecidableEq, Repr

/-- A `QPainterPath`: its commands in the order they were issued. -/
abbrev QPainterPath (K : Type) := List (PathElement K)

/-- The main visual item of a record or an extra item (`QGraphicsItem*`). -/
inductive GraphicsItem (K : Type) where
  | line (l : QLineF K)
  | path (p : QPainterPath K)
  | ellipse (x y w h : K)
deriving DecidableEq, Repr

/-- The text shown by a label: the format string used and the number it prints.
`mm v` is `QString::number (v, 'f', 2) + " mm"`, `radius v` is `"半径: %1 mm"`,
`distance v` is `"距离: %1 mm"` (two decimals), `degrees v` is `"%1°"` (one decimal), and
`nanDegrees` is `"%1°"` for a NaN, the text `nan°`. -/
inductive Text (K : Type) where
  | mm (v : K)
  | radius (v : K)
  | distance (v : K)
  | degrees (v : K)
  | nanDegrees
deriving DecidableEq, Repr

/-- A `QGraphicsSimpleTextItem`: text and position. -/
structure TextItem (K : Type) where
  text : Text K
  pos : QPointF K
deriving DecidableEq, Repr

/-- The struct `MeasureItem` of `CanvasScene.h`. -/
structure MeasureItem (K : Type) where
  /-- The field `type`: 0 line, 1 arc, 2 distance (3 is used for angles). -/
  type : Int
  graphicsItem : GraphicsItem K
  textItem : TextItem K
  points : List (QPointF K)
  extraItems : List (GraphicsItem K)
deriving DecidableEq, Repr

/-- Which `QGraphicsLineItem` of the scene a pointer designates: the preview line
`tempLine`, or the `graphicsItem` of the record at an index of `measureItems`. -/
inductive ItemRef where
  | temp
  | measure (i : Nat)
deriving DecidableEq, Repr

/-- A `QGraphicsLineItem*`: the item designated and the geometry `line ()` it holds. -/
structure LineItemPtr (K : Type) where
  ref : ItemRef
  line : QLineF K
deriving DecidableEq, Repr

/-- The member variables of `CanvasScene`, with the trace of emitted signals. -/
structure CanvasScene (K : Type) where
  currentMode : ToolMode
  scaleRatio : K
  currentPoints : List (QPointF K)
  tempLine : Option (QLineF K)
  tempArc : Option (QPainterPath K)
  selectedLineForDist : Option (LineItemPtr K)
  measureItems : List (MeasureItem K)
  emitted : List Signal
deriving DecidableEq, Repr

section Model

variable {K : Type} [LinearOrderedField K] [FloorRing K]

/-- The constant `PI` of `CanvasScene.h`. -/
def PI : K := 31415926535897932384626433832795 / 10000000000000000000000000000000

/-- The collinearity threshold `1e-5`. -/
def collinearEps : K := 1 / 100000

/-- Helper `dist`: Euclidean distance. -/
def dist (e : Extern K) (p1 p2 : QPointF K) : K :=
  e.sqrt ((p1.x - p2.x) ^ 2 + (p1.y - p2.y) ^ 2)

/-- The state built by the constructor of `CanvasScene`. -/
def init : CanvasScene K :=
  { currentMode := .None, scaleRatio := 1, currentPoints := [], tempLine := none,
    tempArc := none, selectedLineForDist := none, measureItems := [], emitted := [] }

/-- The statement `emit sig`. -/
def emit (s : CanvasScene K) (sig : Signal) : CanvasScene K :=
  { s with emitted := s.emitted ++ [sig] }

/-- Element access `points[i]` of a `QList<QPointF>`. -/
def pt (points : List (QPointF K)) (i : Nat) : QPointF K :=
  points.getD i ⟨0, 0⟩

/-- Method `CanvasScene::setMode`. -/
def setMode (s : CanvasScene K) (mode : ToolMode) : CanvasScene K :=
  { s with currentMode := mode, currentPoints := [], tempLine := none, tempArc := none,
           selectedLineForDist := none }

/-- Method `CanvasScene::toMm`. -/
def toMm (s : CanvasScene K) (pixels : K) : K :=
  pixels / s.scaleRatio

/-- The determinant `D` computed from three points. -/
def detD (p1 p2 p3 : QPointF K) : K :=
  2 * (p1.x * (p2.y - p3.y) + p2.x * (p3.y - p1.y) + p3.x * (p1.y - p2.y))

/-- The expression for `center_x` (`cx`). -/
def centerX (p1 p2 p3 : QPointF K) : K :=
  ((p1.x * p1.x + p1.y * p1.y) * (p2.y - p3.y) + (p2.x * p2.x + p2.y * p2.y) * (p3.y - p1.y)
    + (p3.x * p3.x + p3.y * p3.y) * (p1.y - p2.y)) / detD p1 p2 p3

/-- The expression for `center_y` (`cy`). -/
def centerY (p1 p2 p3 : QPointF K) : K :=
  ((p1.x * p1.x + p1.y * p1.y) * (p3.x - p2.x) + (p2.x * p2.x + p2.y * p2.y) * (p1.x - p3.x)
    + (p3.x * p3.x + p3.y * p3.y) * (p2.x - p1.x)) / detD p1 p2 p3

/-- The lambda `ccwDelta` of `createArcPathThroughMid`. -/
def ccwDelta (aFrom aTo : K) : K :=
  let d := aTo - aFrom
  if d < 0 then d + 360 else d

/-- The loop `while (a < 0) a += 360`, run for at most `fuel` iterations. -/
def addWhileNeg : Nat → K → K
  | 0, a => a
  | fuel + 1, a => if a < 0 then addWhileNeg fuel (a + 360) else a

/-- The loop `while (a >= 360) a -= 360`, run for at most `fuel` iterations. -/
def subWhileGe : Nat → K → K
  | 0, a => a
  | fuel + 1, a => if 360 ≤ a then subWhileGe fuel (a - 360) else a

/-- The lambda `norm360` of `createArcPathThroughMid`; the two loops get
`⌈|a| / 360⌉ + 1` iterations, which is enough for both (`norm360_mem`). -/
def norm360 (a : K) : K :=
  let fuel := ⌈|a| / 360⌉₊ + 1
  subWhileGe fuel (addWhileNeg fuel a)

/-- The end of `createArcPathThroughMid` (from `double ccwTotal` on): the path emitted
for the bounding rectangle `rect` and the normalised angles `a1`, `a2`, `a3`. -/
def arcThroughMid (rect : QRectF K) (a1 a2 a3 : K) : QPainterPath K :=
  let ccwTotal := ccwDelta a1 a3
  let ccwMid := ccwDelta a1 a2
  let midInCCW : Bool := decide (ccwMid ≤ ccwTotal + 1 / 1000000000)
  let out : QPainterPath K := [.arcMoveTo rect a1]
  if midInCCW then
    out ++ [.arcTo rect a1 ccwMid, .arcTo rect a2 (ccwDelta a2 a3)]
  else
    let cw1 := ccwDelta a2 a1
    let cw2 := ccwDelta a3 a2
    out ++ [.arcTo rect a1 (-cw1), .arcTo rect a2 (-cw2)]

/-- Function `createArcPathThroughMid`. -/
def createArcPathThroughMid (e : Extern K) (p1 p2 p3 : QPointF K) : QPainterPath K :=
  let D := detD p1 p2 p3
  if |D| < collinearEps then
    [.moveTo p1, .lineTo p2, .lineTo p3]
  else
    let cx := centerX p1 p2 p3
    let cy := centerY p1 p2 p3
    let r := e.sqrt ((cx - p1.x) * (cx - p1.x) + (cy - p1.y) * (cy - p1.y))
    let angleQt := fun (x y : K) => e.atan2 (-(y - cy)) (x - cx) * 180 / PI
    let a1 := norm360 (angleQt p1.x p1.y)
    let a2 := norm360 (angleQt p2.x p2.y)
    let a3 := norm360 (angleQt p3.x p3.y)
    arcThroughMid ⟨cx - r, cy - r, r * 2, r * 2⟩ a1 a2 a3

/-- Method `CanvasScene::finishLine`. -/
def finishLine (e : Extern K) (s : CanvasScene K) (p1 p2 : QPointF K) : CanvasScene K :=
  let lengthPx := dist e p1 p2
  let lengthMm := toMm s lengthPx
  let text : TextItem K := ⟨.mm lengthMm, ⟨(p1.x + p2.x) / 2, (p1.y + p2.y) / 2⟩⟩
  { s with measureItems := s.measureItems ++ [⟨0, .line ⟨p1, p2⟩, text, [p1, p2], []⟩] }

/-- Method `CanvasScene::finishArc`. -/
def finishArc (e : Extern K) (s : CanvasScene K) (p1 p2 p3 : QPointF K) : CanvasScene K :=
  let D := detD p1 p2 p3
  if |D| < collinearEps then
    emit s (.messageChanged "三点共线，无法绘制圆弧")
  else
    let center : QPointF K := ⟨centerX p1 p2 p3, centerY p1 p2 p3⟩
    let radiusPx := dist e center p1
    let radiusMm := toMm s radiusPx
    let path := createArcPathThroughMid e p1 p2 p3
    let extras : List (GraphicsItem K) :=
      [.ellipse (p1.x - 2) (p1.y - 2) 4 4, .ellipse (p2.x - 2) (p2.y - 2) 4 4,
       .ellipse (p3.x - 2) (p3.y - 2) 4 4]
    let text : TextItem K := ⟨.radius radiusMm, center⟩
    { s with measureItems := s.measureItems ++ [⟨1, .path path, text, [p1, p2, p3], extras⟩] }

/-- Method `CanvasScene::finishAngle`. The angle is `none` where the double computation
gives NaN: when the divisor `mag1 * mag2` is zero (`dot / 0` is NaN or infinite, and `acos`
of either is NaN), or when `acos` itself returns NaN. -/
def finishAngle (e : Extern K) (s : CanvasScene K) (p1 p2 p3 : QPointF K) : CanvasScene K :=
  let v1x := p1.x - p2.x
  let v1y := p1.y - p2.y
  let v2x := p3.x - p2.x
  let v2y := p3.y - p2.y
  let dot := v1x * v2x + v1y * v2y
  let mag1 := e.sqrt (v1x * v1x + v1y * v1y)
  let mag2 := e.sqrt (v2x * v2x + v2y * v2y)
  let angleRad : Option K :=
    if mag1 * mag2 = 0 then none else e.acos (dot / (mag1 * mag2))
  let angleDeg : Option K := angleRad.map (fun a => a * 180 / PI)
  let path : QPainterPath K := [.moveTo p2, .lineTo p1, .moveTo p2, .lineTo p3]
  let label : Text K :=
    match angleDeg with
    | some a => .degrees a
    | none => .nanDegrees
  let text : TextItem K := ⟨label, ⟨p2.x + 10, p2.y + 10⟩⟩
  { s with measureItems := s.measureItems ++ [⟨3, .path path, text, [p1, p2, p3], []⟩] }

/-- The point `projPoint` computed by `CanvasScene::finishDistance`. -/
def projPoint (l : QLineF K) (point : QPointF K) : QPointF K :=
  let ABx := l.p2.x - l.p1.x
  let ABy := l.p2.y - l.p1.y
  let APx := point.x - l.p1.x
  let APy := point.y - l.p1.y
  let t := (APx * ABx + APy * ABy) / (ABx * ABx + ABy * ABy)
  ⟨l.p1.x + t * ABx, l.p1.y + t * ABy⟩

/-- Method `CanvasScene::finishDistance`; `l` is `line->line ()`. -/
def finishDistance (e : Extern K) (s : CanvasScene K) (l : QLineF K) (point : QPointF K) :
    CanvasScene K :=
  let proj := projPoint l point
  let distPx := dist e point proj
  let distMm := toMm s distPx
  let text : TextItem K :=
    ⟨.distance distMm, ⟨(point.x + proj.x) / 2, (point.y + proj.y) / 2⟩⟩
  { s with measureItems :=
      s.measureItems ++ [⟨2, .line ⟨point, proj⟩, text, [point, proj], []⟩] }

/-- The body of the loop of `CanvasScene::updateMeasurements` for one record. -/
def updateItem (e : Extern K) (s : CanvasScene K) (item : MeasureItem K) : MeasureItem K :=
  if item.type = 0 then
    let lengthPx := dist e (pt item.points 0) (pt item.points 1)
    let lengthMm := toMm s lengthPx
    { item with textItem := { item.textItem with text := .mm lengthMm } }
  else if item.type = 1 then
    let p1 := pt item.points 0
    let p2 := pt item.points 1
    let p3 := pt item.points 2
    let D := detD p1 p2 p3
    if |D| > collinearEps then
      let center : QPointF K := ⟨centerX p1 p2 p3, centerY p1 p2 p3⟩
      let radiusPx := dist e center p1
      let radiusMm := toMm s radiusPx
      { item with textItem := { item.textItem with text := .radius radiusMm } }
    else item
  else if item.type = 2 then
    let distPx := dist e (pt item.points 0) (pt item.points 1)
    let distMm := toMm s distPx
    { item with textItem := { item.textItem with text := .distance distMm } }
  else item

/-- Method `CanvasScene::updateMeasurements`. -/
def updateMeasurements (e : Extern K) (s : CanvasScene K) : CanvasScene K :=
  { s with measureItems := s.measureItems.map (updateItem e s) }

/-- Method `CanvasScene::setScaleRatio`. -/
def setScaleRatio (e : Extern K) (s : CanvasScene K) (pxPerMm : K) : CanvasScene K :=
  if pxPerMm > 0 then
    updateMeasurements e { s with scaleRatio := pxPerMm }
  else s

/-- The `QGraphicsLineItem`s among the main items of the records, oldest first. -/
def measureLineItems : Nat → List (MeasureItem K) → List (LineItemPtr K)
  | _, [] => []
  | i, item :: rest =>
    match item.graphicsItem with
    | .line l => ⟨.measure i, l⟩ :: measureLineItems (i + 1) rest
    | _ => measureLineItems (i + 1) rest

/-- The `QGraphicsLineItem`s of the scene in the order `items ()` lists them
(descending stacking order: the newest item first). -/
def lineItems (s : CanvasScene K) : List (LineItemPtr K) :=
  (match s.tempLine with
    | some l => [⟨.temp, l⟩]
    | none => []) ++ (measureLineItems 0 s.measureItems).reverse

/-- Method `CanvasScene::mousePressEvent`; `pos` is `event->scenePos ()`. -/
def mousePressEvent (e : Extern K) (s : CanvasScene K) (pos : QPointF K) : CanvasScene K :=
  match s.currentMode with
  | .Line =>
    let s1 := { s with currentPoints := s.currentPoints ++ [pos] }
    match s1.currentPoints with
    | [_] => emit s1 (.messageChanged "点击第二个点以完成直线")
    | [p0, p1] =>
      let s2 := finishLine e s1 p0 p1
      let s3 := { s2 with currentPoints := [], tempLine := none }
      let s4 := emit s3 (.messageChanged "直线绘制完成。")
      emit (setMode s4 .None) (.modeChanged .None)
    | _ => s1
  | .Arc =>
    let s1 := { s with currentPoints := s.currentPoints ++ [pos] }
    match s1.currentPoints with
    | [_] => emit s1 (.messageChanged "点击圆弧第二个点")
    | [_, _] => emit s1 (.messageChanged "点击圆弧第三个点")
    | [p0, p1, p2] =>
      let s2 := finishArc e s1 p0 p1 p2
      let s3 := { s2 with currentPoints := [], tempArc := none }
      let s4 := emit s3 (.messageChanged "圆弧绘制完成。")
      emit (setMode s4 .None) (.modeChanged .None)
    | _ => s1
  | .Angle =>
    let s1 := { s with currentPoints := s.currentPoints ++ [pos] }
    match s1.currentPoints with
    | [_] => emit s1 (.messageChanged "点击顶点")
    | [_, _] => emit s1 (.messageChanged "点击终点")
    | [p0, p1, p2] =>
      let s2 := finishAngle e s1 p0 p1 p2
      let s3 := { s2 with currentPoints := [], tempLine := none }
      let s4 := emit s3 (.messageChanged "角度测量完成。")
      emit (setMode s4 .None) (.modeChanged .None)
    | _ => s1
  | .Distance =>
    match s.selectedLineForDist with
    | none =>
      let selectionRect : QRectF K := ⟨pos.x - 5, pos.y - 5, 10, 10⟩
      match (lineItems s).find? (fun item => e.intersects selectionRect item.line) with
      | some lineItem =>
        emit { s with selectedLineForDist := some lineItem }
          (.messageChanged "直线已选中。点击一个点以测量距离。")
      | none => emit s (.messageChanged "请点击一条已存在的直线。")
    | some lineItem =>
      let s1 := finishDistance e s lineItem.line pos
      let s2 := { s1 with selectedLineForDist := none }
      let s3 := emit s2 (.messageChanged "距离测量完成。")
      emit (setMode s3 .None) (.modeChanged .None)
  | .None => s

/-- Method `CanvasScene::updatePreview`. -/
def updatePreview (e : Extern K) (s : CanvasScene K) (pos : QPointF K) : CanvasScene K :=
  match s.currentMode, s.currentPoints with
  | .Line, [p0] => { s with tempLine := some ⟨p0, pos⟩ }
  | .Arc, [p0] => { s with tempArc := some [.moveTo p0, .lineTo pos] }
  | .Arc, [p0, p1] => { s with tempArc := some (createArcPathThroughMid e p0 p1 pos) }
  | .Angle, [p0] => { s with tempLine := some ⟨p0, pos⟩ }
  | .Angle, [p0, p1] =>
    { s with tempLine := none, tempArc := some [.moveTo p0, .lineTo p1, .lineTo pos] }
  | _, _ => s

/-- Method `CanvasScene::mouseMoveEvent`. -/
def mouseMoveEvent (e : Extern K) (s : CanvasScene K) (pos : QPointF K) : CanvasScene K :=
  updatePreview e s pos

/-- Method `CanvasScene::clearMeasurements`. -/
def clearMeasurements (s : CanvasScene K) : CanvasScene K :=
  let s1 := { s with measureItems := [] }
  let s2 := emit (setMode s1 .None) (.modeChanged .None)
  emit s2 (.messageChanged "所有绘制对象已清除")

/-- The calls the window and the view make on the scene. -/
inductive Event (K : Type) where
  | setMode (mode : ToolMode)
  | click (pos : QPointF K)
  | move (pos : QPointF K)
  | setScaleRatio (pxPerMm : K)
  | clear

/-- One call on the scene. -/
def step (e : Extern K) (s : CanvasScene K) : Event K → CanvasScene K
  | .setMode mode => setMode s mode
  | .click pos => mousePressEvent e s pos
  | .move pos => mouseMoveEvent e s pos
  | .setScaleRatio x => setScaleRatio e s x
  | .clear => clearMeasurements s

/-- A sequence of calls, from the state `s`. -/
def run (e : Extern K) (s : CanvasScene K) (events : List (Event K)) : CanvasScene K :=
  events.foldl (step e) s

/-- The states the scene can be in: those a sequence of calls reaches from `init`. -/
def Reachable (e : Extern K) (s : CanvasScene K) : Prop :=
  ∃ events : List (Event K), run e init events = s

/-- The label of a record agrees with its anchor points and the scale factor `scale`:
a Line record shows `distance (p1, p2) / scale`, a Distance record shows
`distance (point, projected) / scale`, and an Arc record whose determinant is above the
threshold of `updateMeasurements` shows `distance (center, p1) / scale`. -/
def LabelConsistent (e : Extern K) (scale : K) (r : MeasureItem K) : Prop :=
  (r.type = 0 → r.textItem.text = .mm (dist e (pt r.points 0) (pt r.points 1) / scale)) ∧
  (r.type = 1 → collinearEps < |detD (pt r.points 0) (pt r.points 1) (pt r.points 2)| →
    r.textItem.text = .radius
      (dist e ⟨centerX (pt r.points 0) (pt r.points 1) (pt r.points 2),
               centerY (pt r.points 0) (pt r.points 1) (pt r.points 2)⟩ (pt r.points 0)
        / scale)) ∧
  (r.type = 2 → r.textItem.text = .distance (dist e (pt r.points 0) (pt r.points 1) / scale))

/-- The lambda `angleQt` of `createArcPathThroughMid`, for the center `(cx, cy)`. -/
def angleQt (e : Extern K) (cx cy x y : K) : K :=
  e.atan2 (-(y - cy)) (x - cx) * 180 / PI

/-- The normalised angle `norm360 (angleQt (p.x, p.y))` that `createArcPathThroughMid`
computes for a point `p`, around the center it computes from `p1`, `p2`, `p3`. -/
def pointAngle (e : Extern K) (p1 p2 p3 p : QPointF K) : K :=
  norm360 (angleQt e (centerX p1 p2 p3) (centerY p1 p2 p3) p.x p.y)

/-- The rectangle `rect` of `createArcPathThroughMid`: the bounding box of the circle
around the computed center through `p1`. -/
def arcRect (e : Extern K) (p1 p2 p3 : QPointF K) : QRectF K :=
  let cx := centerX p1 p2 p3
  let cy := centerY p1 p2 p3
  let r := e.sqrt ((cx - p1.x) * (cx - p1.x) + (cy - p1.y) * (cy - p1.y))
  ⟨cx - r, cy - r, r * 2, r * 2⟩

/-- A hit test for worked examples: the bounding box of the line meets the rectangle.
For a horizontal or a vertical line this is "the segment meets the rectangle". -/
def bboxIntersects (rect : QRectF K) (l : QLineF K) : Bool :=
  decide (min l.p1.x l.p2.x ≤ rect.x + rect.w ∧ rect.x ≤ max l.p1.x l.p2.x ∧
    min l.p1.y l.p2.y ≤ rect.y + rect.h ∧ rect.y ≤ max l.p1.y l.p2.y)

/-- The bound on the pending-click buffer for the active mode: at most 1 point in Line
mode, at most 2 in Arc and Angle mode, none in None and Distance mode. -/
def BufferBound (s : CanvasScene K) : Prop :=
  match s.currentMode with
  | .Line => s.currentPoints.length ≤ 1
  | .Arc => s.currentPoints.length ≤ 2
  | .Angle => s.currentPoints.length ≤ 2
  | .None => s.currentPoints.length = 0
  | .Distance => s.currentPoints.length = 0

end Model

/-! ## Properties -/

section Basic

variable {K : Type} [LinearOrderedField K]

/-- For all angles `a1`, `a2`, `a3`, the tail of `createArcPathThroughMid` emits, in both
branches, a first sub-arc starting at `a1` with a sweep `s1` such that `a1 + s1` is
congruent to `a2` modulo 360, then a second sub-arc starting at `a2` with a sweep `s2` such
that `a2 + s2` is congruent to `a3` modulo 360; the two sweeps are those of the branch. -/
theorem arcThroughMid_congruent (rect : QRectF K) (a1 a2 a3 : K) :
    ∃ s1 s2 : K,
      arcThroughMid rect a1 a2 a3
        = [.arcMoveTo rect a1, .arcTo rect a1 s1, .arcTo rect a2 s2] ∧
      (∃ k : ℤ, a1 + s1 - a2 = 360 * k) ∧ (∃ k : ℤ, a2 + s2 - a3 = 360 * k) ∧
      (ccwDelta a1 a2 ≤ ccwDelta a1 a3 + 1 / 1000000000 ∧
        s1 = ccwDelta a1 a2 ∧ s2 = ccwDelta a2 a3 ∨
       ¬ ccwDelta a1 a2 ≤ ccwDelta a1 a3 + 1 / 1000000000 ∧
        s1 = -ccwDelta a2 a1 ∧ s2 = -ccwDelta a3 a2) := by
  by_cases hmid : ccwDelta a1 a2 ≤ ccwDelta a1 a3 + 1 / 1000000000
  · refine ⟨ccwDelta a1 a2, ccwDelta a2 a3, ?_, ?_, ?_, Or.inl ⟨hmid, rfl, rfl⟩⟩
    · simp only [arcThroughMid, hmid, decide_True, if_true, List.cons_append, List.nil_append]
    · by_cases h : a2 - a1 < 0
      · exact ⟨1, by simp only [ccwDelta, if_pos h]; push_cast; ring⟩
      · exact ⟨0, by simp only [ccwDelta, if_neg h]; push_cast; ring⟩
    · by_cases h : a3 - a2 < 0
      · exact ⟨1, by simp only [ccwDelta, if_pos h]; push_cast; ring⟩
      · exact ⟨0, by simp only [ccwDelta, if_neg h]; push_cast; ring⟩
  · refine ⟨-ccwDelta a2 a1, -ccwDelta a3 a2, ?_, ?_, ?_, Or.inr ⟨hmid, rfl, rfl⟩⟩
    · simp only [arcThroughMid, hmid, decide_False, Bool.false_eq_true, if_false,
        List.cons_append, List.nil_append]
    · by_cases h : a1 - a2 < 0
      · exact ⟨-1, by simp only [ccwDelta, if_pos h]; push_cast; ring⟩
      · exact ⟨0, by simp only [ccwDelta, if_neg h]; push_cast; ring⟩
    · by_cases h : a2 - a3 < 0
      · exact ⟨-1, by simp only [ccwDelta, if_pos h]; push_cast; ring⟩
      · exact ⟨0, by simp only [ccwDelta, if_neg h]; push_cast; ring⟩

/-- The counter-clockwise delta between normalised angles is not negative. -/
theorem ccwDelta_nonneg (a b : K) (ha : 0 ≤ a ∧ a < 360) (hb : 0 ≤ b ∧ b < 360) :
    0 ≤ ccwDelta a b := by
  obtain ⟨hal, hau⟩ := ha
  obtain ⟨hbl, hbu⟩ := hb
  simp only [ccwDelta]
  split_ifs <;> linarith

/-- A line with two distinct end points has a non-zero squared length. -/
theorem line_sq_length_ne_zero (l : QLineF K) (h : l.p1 ≠ l.p2) :
    (l.p2.x - l.p1.x) * (l.p2.x - l.p1.x) + (l.p2.y - l.p1.y) * (l.p2.y - l.p1.y) ≠ 0 := by
  intro h0
  obtain ⟨hx, hy⟩ := (mul_self_add_mul_self_eq_zero.mp h0)
  apply h
  cases hp1 : l.p1 with
  | mk x1 y1 =>
    cases hp2 : l.p2 with
    | mk x2 y2 =>
      rw [hp1, hp2] at hx hy
      simp only at hx hy
      rw [sub_eq_zero.mp hx, sub_eq_zero.mp hy]

/-- The segment from a point to its projection is perpendicular to the line. -/
theorem projPoint_perp (l : QLineF K) (P : QPointF K) (h : l.p1 ≠ l.p2) :
    (P.x - (projPoint l P).x) * (l.p2.x - l.p1.x)
      + (P.y - (projPoint l P).y) * (l.p2.y - l.p1.y) = 0 := by
  have hd := line_sq_length_ne_zero l h
  simp only [projPoint]
  field_simp
  ring

/-- The squared distance from `P` to any point of the line exceeds the squared distance
from `P` to its projection by a square. -/
theorem projPoint_sq_dist (l : QLineF K) (P : QPointF K) (h : l.p1 ≠ l.p2) (sp : K) :
    (P.x - (l.p1.x + sp * (l.p2.x - l.p1.x))) ^ 2 + (P.y - (l.p1.y + sp * (l.p2.y - l.p1.y))) ^ 2
      = (P.x - (projPoint l P).x) ^ 2 + (P.y - (projPoint l P).y) ^ 2
        + (sp - ((P.x - l.p1.x) * (l.p2.x - l.p1.x) + (P.y - l.p1.y) * (l.p2.y - l.p1.y))
            / ((l.p2.x - l.p1.x) * (l.p2.x - l.p1.x) + (l.p2.y - l.p1.y) * (l.p2.y - l.p1.y))) ^ 2
          * ((l.p2.x - l.p1.x) * (l.p2.x - l.p1.x) + (l.p2.y - l.p1.y) * (l.p2.y - l.p1.y)) := by
  have hd := line_sq_length_ne_zero l h
  simp only [projPoint]
  field_simp
  ring

/-- C7: `setScaleRatio x` with `x ≤ 0` changes nothing at all (scale factor, records and
their labels, mode, buffer); with `x > 0` the scale factor becomes `x`. -/
theorem setScaleRatio_nonpos_noop (e : Extern K) (s : CanvasScene K) (x : K) :
    (x ≤ 0 → setScaleRatio e s x = s) ∧ (0 < x → (setScaleRatio e s x).scaleRatio = x) := by
  constructor
  · intro hx
    simp only [setScaleRatio, gt_iff_lt, if_neg (not_lt.mpr hx)]
  · intro hx
    simp only [setScaleRatio, gt_iff_lt, if_pos hx, updateMeasurements]

/-- An instance of C7 on rationals: from the initial scene with a Line record, the factor
-1 is rejected and the factor 2 is taken. -/
theorem setScaleRatio_nonpos_noop_witness :
    setScaleRatio ⟨id, some, fun _ _ => 0, fun _ _ => false⟩
        (run ⟨id, some, fun _ _ => 0, fun _ _ => false⟩ (init : CanvasScene ℚ)
          [.setMode .Line, .click ⟨0, 0⟩, .click ⟨10, 0⟩]) (-1)
      = run ⟨id, some, fun _ _ => 0, fun _ _ => false⟩ init
          [.setMode .Line, .click ⟨0, 0⟩, .click ⟨10, 0⟩] ∧
    (setScaleRatio ⟨id, some, fun _ _ => 0, fun _ _ => false⟩
        (run ⟨id, some, fun _ _ => 0, fun _ _ => false⟩ (init : CanvasScene ℚ)
          [.setMode .Line, .click ⟨0, 0⟩, .click ⟨10, 0⟩]) 2).scaleRatio = 2 :=
  ⟨(setScaleRatio_nonpos_noop _ _ (-1)).1 (by norm_num),
   (setScaleRatio_nonpos_noop _ _ 2).2 (by norm_num)⟩

/-- Recomputing a label that was just recomputed for the same scale factor changes
nothing. -/
theorem updateItem_idem (e : Extern K) (s1 s2 : CanvasScene K)
    (h : s2.scaleRatio = s1.scaleRatio) (item : MeasureItem K) :
    updateItem e s2 (updateItem e s1 item) = updateItem e s1 item := by
  by_cases h0 : item.type = 0
  · simp [updateItem, h0, toMm, h]
  · by_cases h1 : item.type = 1
    · by_cases hD : collinearEps < |detD (pt item.points 0) (pt item.points 1) (pt item.points 2)|
      · simp [updateItem, h1, hD, toMm, h]
      · simp [updateItem, h1, hD]
    · by_cases h2 : item.type = 2
      · simp [updateItem, h2, toMm, h]
      · simp [updateItem, h0, h1, h2]

/-- C9: calling `setScaleRatio s` twice in a row with `s > 0` leaves the scene (every
record, its derived value and its display text) as one call leaves it. -/
theorem setScaleRatio_idempotent (e : Extern K) (s : CanvasScene K) (x : K) (hx : 0 < x) :
    setScaleRatio e (setScaleRatio e s x) x = setScaleRatio e s x ∧
    (setScaleRatio e (setScaleRatio e s x) x).measureItems.map (fun r => r.textItem.text)
      = (setScaleRatio e s x).measureItems.map (fun r => r.textItem.text) := by
  have hstate : setScaleRatio e (setScaleRatio e s x) x = setScaleRatio e s x := by
    simp only [setScaleRatio, gt_iff_lt, if_pos hx, updateMeasurements, List.map_map]
    congr 1
    apply List.map_congr_left
    intro item _
    exact updateItem_idem e _ _ rfl item
  exact ⟨hstate, by rw [hstate]⟩

/-- An instance of C9 on real numbers: a Line record (0,0)–(100,0), scale factor 10 set
twice. -/
theorem setScaleRatio_idempotent_witness :
    (0 : ℝ) < 10 ∧
    setScaleRatio ⟨Real.sqrt, fun x => some (Real.arccos x), fun _ _ => 0, fun _ _ => false⟩
      (setScaleRatio ⟨Real.sqrt, fun x => some (Real.arccos x), fun _ _ => 0, fun _ _ => false⟩
        (run ⟨Real.sqrt, fun x => some (Real.arccos x), fun _ _ => 0, fun _ _ => false⟩ init
          [.setMode .Line, .click ⟨0, 0⟩, .click ⟨100, 0⟩]) 10) 10
      = setScaleRatio ⟨Real.sqrt, fun x => some (Real.arccos x), fun _ _ => 0, fun _ _ => false⟩
        (run ⟨Real.sqrt, fun x => some (Real.arccos x), fun _ _ => 0, fun _ _ => false⟩ init
          [.setMode .Line, .click ⟨0, 0⟩, .click ⟨100, 0⟩]) 10 :=
  ⟨by norm_num, (setScaleRatio_idempotent _ _ 10 (by norm_num)).1⟩

/-- After `updateItem` every label agrees with the scale factor of the scene. -/
theorem updateItem_consistent (e : Extern K) (s : CanvasScene K) (item : MeasureItem K) :
    LabelConsistent e s.scaleRatio (updateItem e s item) := by
  by_cases h0 : item.type = 0
  · simp [LabelConsistent, updateItem, h0, toMm]
  · by_cases h1 : item.type = 1
    · by_cases hD : collinearEps < |detD (pt item.points 0) (pt item.points 1) (pt item.points 2)|
      · simp [LabelConsistent, updateItem, h1, hD, toMm]
      · simp [LabelConsistent, updateItem, h1, hD]
    · by_cases h2 : item.type = 2
      · simp [LabelConsistent, updateItem, h2, toMm]
      · simp [LabelConsistent, updateItem, h0, h1, h2]

/-- The first loop of `norm360` with enough iterations ends on a non-negative number that
differs from its input by a multiple of 360 and is below 360 when the input was negative. -/
theorem addWhileNeg_spec (fuel : Nat) : ∀ a : K, -(360 * (fuel : K)) ≤ a →
    0 ≤ addWhileNeg fuel a ∧ (a < 0 → addWhileNeg fuel a < 360) ∧
    (0 ≤ a → addWhileNeg fuel a = a) ∧ ∃ k : ℤ, addWhileNeg fuel a = a + 360 * k := by
  induction fuel with
  | zero =>
    intro a ha
    have h0 : 0 ≤ a := by simpa using ha
    exact ⟨h0, fun h => absurd h (not_lt.mpr h0), fun _ => rfl, 0, by simp [addWhileNeg]⟩
  | succ n ih =>
    intro a ha
    by_cases hneg : a < 0
    · have hstep : -(360 * (n : K)) ≤ a + 360 := by
        push_cast at ha
        linarith
      obtain ⟨h1, h2, h3, k, hk⟩ := ih (a + 360) hstep
      simp only [addWhileNeg, if_pos hneg]
      refine ⟨h1, fun _ => ?_, fun h => absurd hneg (not_lt.mpr h), k + 1, ?_⟩
      · by_cases hlt : a + 360 < 0
        · exact h2 hlt
        · rw [h3 (not_lt.mp hlt)]
          linarith
      · rw [hk]
        push_cast
        ring
    · simp only [addWhileNeg, if_neg hneg]
      exact ⟨not_lt.mp hneg, fun h => absurd h hneg, fun _ => trivial, 0, by simp⟩

/-- The second loop of `norm360` with enough iterations ends in [0, 360) on a number that
differs from its input by a multiple of 360. -/
theorem subWhileGe_spec (fuel : Nat) : ∀ a : K, 0 ≤ a → a < 360 * ((fuel : K) + 1) →
    0 ≤ subWhileGe fuel a ∧ subWhileGe fuel a < 360 ∧
    ∃ k : ℤ, subWhileGe fuel a = a + 360 * k := by
  induction fuel with
  | zero =>
    intro a h0 ha
    exact ⟨h0, by simpa using ha, 0, by simp [subWhileGe]⟩
  | succ n ih =>
    intro a h0 ha
    by_cases hge : 360 ≤ a
    · have hlt : a - 360 < 360 * ((n : K) + 1) := by
        push_cast at ha
        linarith
      obtain ⟨h1, h2, k, hk⟩ := ih (a - 360) (by linarith) hlt
      simp only [subWhileGe, if_pos hge]
      refine ⟨h1, h2, k - 1, ?_⟩
      rw [hk]
      push_cast
      ring
    · simp only [subWhileGe, if_neg hge]
      exact ⟨h0, not_le.mp hge, 0, by simp⟩

/-- The constant `PI` is positive. -/
theorem PI_pos : (0 : K) < PI := by
  simp only [PI]
  positivity

/-- For normalised angles, when the through angle is at most as far counter-clockwise from
the start as the end angle, the delta from through to end is the difference of the two. -/
theorem ccwDelta_split (a1 a2 a3 : K) (h1 : 0 ≤ a1 ∧ a1 < 360) (h2 : 0 ≤ a2 ∧ a2 < 360)
    (h3 : 0 ≤ a3 ∧ a3 < 360) (h : ccwDelta a1 a2 ≤ ccwDelta a1 a3) :
    ccwDelta a2 a3 = ccwDelta a1 a3 - ccwDelta a1 a2 := by
  obtain ⟨h1l, h1u⟩ := h1
  obtain ⟨h2l, h2u⟩ := h2
  obtain ⟨h3l, h3u⟩ := h3
  simp only [ccwDelta] at h ⊢
  split_ifs at h ⊢ <;> linarith

/-- The counter-clockwise delta between normalised angles is below 360. -/
theorem ccwDelta_lt (a b : K) (ha : 0 ≤ a ∧ a < 360) (hb : 0 ≤ b ∧ b < 360) :
    ccwDelta a b < 360 := by
  obtain ⟨hal, hau⟩ := ha
  obtain ⟨hbl, hbu⟩ := hb
  simp only [ccwDelta]
  split_ifs <;> linarith

/-- The tail of `createArcPathThroughMid` on the angles 0, 10.0000000005, 10: the
counter-clockwise branch is taken (`ccwMid ≤ ccwTotal + 1e-9`), the second sweep is
359.9999999995 and not `ccwTotal - ccwMid`, and the two sweeps add up to 370, not to
`ccwTotal` = 10. -/
theorem arcThroughMid_band_full_turn :
    ccwDelta (0 : ℚ) (10 + 1 / 2000000000) ≤ ccwDelta (0 : ℚ) 10 + 1 / 1000000000 ∧
    arcThroughMid (⟨0, 0, 2, 2⟩ : QRectF ℚ) 0 (10 + 1 / 2000000000) 10
      = [.arcMoveTo ⟨0, 0, 2, 2⟩ 0, .arcTo ⟨0, 0, 2, 2⟩ 0 (10 + 1 / 2000000000),
         .arcTo ⟨0, 0, 2, 2⟩ (10 + 1 / 2000000000) (360 - 1 / 2000000000)] ∧
    (360 - 1 / 2000000000 : ℚ) ≠ ccwDelta (0 : ℚ) 10 - ccwDelta (0 : ℚ) (10 + 1 / 2000000000) ∧
    ((10 + 1 / 2000000000) + (360 - 1 / 2000000000) : ℚ) ≠ ccwDelta (0 : ℚ) 10 ∧
    ¬ ((10 + 1 / 2000000000) + (360 - 1 / 2000000000) : ℚ) < 360 := by
  refine ⟨?_, ?_, ?_, ?_, ?_⟩ <;> norm_num [arcThroughMid, ccwDelta]

/-- For normalised angles in [0, 360) with `ccwMid ≤ ccwTotal` (no epsilon), the path of
`arcThroughMid` has the sweeps `ccwMid` and `ccwTotal - ccwMid`, which add up to
`ccwTotal`, below 360. -/
theorem arcThroughMid_ccw_sweeps_exact (rect : QRectF K) (a1 a2 a3 : K)
    (h1 : 0 ≤ a1 ∧ a1 < 360) (h2 : 0 ≤ a2 ∧ a2 < 360) (h3 : 0 ≤ a3 ∧ a3 < 360)
    (h : ccwDelta a1 a2 ≤ ccwDelta a1 a3) :
    arcThroughMid rect a1 a2 a3
      = [.arcMoveTo rect a1, .arcTo rect a1 (ccwDelta a1 a2),
         .arcTo rect a2 (ccwDelta a1 a3 - ccwDelta a1 a2)] ∧
    ccwDelta a1 a2 + (ccwDelta a1 a3 - ccwDelta a1 a2) = ccwDelta a1 a3 ∧
    ccwDelta a1 a3 < 360 := by
  have hccw : ccwDelta a1 a2 ≤ ccwDelta a1 a3 + 1 / 1000000000 := by linarith
  have hsplit := ccwDelta_split a1 a2 a3 h1 h2 h3 h
  refine ⟨?_, by ring, ccwDelta_lt a1 a3 h1 h3⟩
  simp only [arcThroughMid, hccw, decide_True, if_true, List.cons_append, List.nil_append,
    hsplit]

/-- Recomputing a label keeps the type, the anchor points and the main item of a record. -/
theorem updateItem_fields (e : Extern K) (s : CanvasScene K) (item : MeasureItem K) :
    (updateItem e s item).type = item.type ∧ (updateItem e s item).points = item.points ∧
    (updateItem e s item).graphicsItem = item.graphicsItem := by
  by_cases h0 : item.type = 0
  · simp [updateItem, h0]
  · by_cases h1 : item.type = 1
    · by_cases hD : collinearEps < |detD (pt item.points 0) (pt item.points 1) (pt item.points 2)|
      · simp [updateItem, h1, hD]
      · simp [updateItem, h1, hD]
    · by_cases h2 : item.type = 2
      · simp [updateItem, h2]
      · simp [updateItem, h0, h1, h2]

end Basic

section Reset

variable {K : Type}

/-- C11: from any state, `clearMeasurements` leaves the store empty, the mode None, the
pending-click buffer empty and no line selected, and keeps the scale factor; it emits
`modeChanged (None)` and one status message. -/
theorem clearMeasurements_resets (s : CanvasScene K) :
    (clearMeasurements s).measureItems = [] ∧
    (clearMeasurements s).currentMode = .None ∧
    (clearMeasurements s).currentPoints = [] ∧
    (clearMeasurements s).selectedLineForDist = none ∧
    (clearMeasurements s).tempLine = none ∧ (clearMeasurements s).tempArc = none ∧
    (clearMeasurements s).scaleRatio = s.scaleRatio ∧
    (clearMeasurements s).emitted
      = s.emitted ++ [.modeChanged .None, .messageChanged "所有绘制对象已清除"] := by
  refine ⟨rfl, rfl, rfl, rfl, rfl, rfl, rfl, ?_⟩
  simp [clearMeasurements, emit, setMode]

end Reset

section Properties

variable {K : Type} [LinearOrderedField K] [FloorRing K]

/-- The iterations given to the loops of `norm360` are enough: the result is in [0, 360)
and differs from the input by a multiple of 360. -/
theorem norm360_mem (a : K) :
    0 ≤ norm360 a ∧ norm360 a < 360 ∧ ∃ k : ℤ, norm360 a = a + 360 * k := by
  have hceil : |a| ≤ 360 * ((⌈|a| / 360⌉₊ : ℕ) : K) := by
    have h := Nat.le_ceil (|a| / 360)
    have h360 : (0 : K) < 360 := by norm_num
    calc |a| = 360 * (|a| / 360) := by field_simp
      _ ≤ 360 * ((⌈|a| / 360⌉₊ : ℕ) : K) := by
        exact mul_le_mul_of_nonneg_left h (le_of_lt h360)
  have habs := neg_abs_le a
  have hle := le_abs_self a
  have hfuel : -(360 * ((⌈|a| / 360⌉₊ + 1 : ℕ) : K)) ≤ a := by
    push_cast
    linarith
  obtain ⟨h1, h2, h3, k1, hk1⟩ := addWhileNeg_spec (⌈|a| / 360⌉₊ + 1) a hfuel
  have hlt : addWhileNeg (⌈|a| / 360⌉₊ + 1) a < 360 * (((⌈|a| / 360⌉₊ + 1 : ℕ) : K) + 1) := by
    push_cast
    by_cases hneg : a < 0
    · have := h2 hneg
      have hc : (0 : K) ≤ ((⌈|a| / 360⌉₊ : ℕ) : K) := Nat.cast_nonneg _
      linarith
    · rw [h3 (not_lt.mp hneg)]
      linarith
  obtain ⟨h4, h5, k2, hk2⟩ := subWhileGe_spec (⌈|a| / 360⌉₊ + 1) _ h1 hlt
  refine ⟨h4, h5, k1 + k2, ?_⟩
  simp only [norm360]
  rw [hk2, hk1]
  push_cast
  ring

/-- The value of `norm360`: the number in [0, 360) that differs from the input by a
multiple of 360. -/
theorem norm360_eq (a b : K) (k : ℤ) (hb : 0 ≤ b ∧ b < 360) (h : b = a + 360 * k) :
    norm360 a = b := by
  obtain ⟨h0, h1, k', hk'⟩ := norm360_mem a
  obtain ⟨hb0, hb1⟩ := hb
  have hdiff : (360 : K) * ((k' - k : ℤ) : K) = norm360 a - b := by
    rw [hk', h]
    push_cast
    ring
  have hlo : ((-1 : ℤ) : K) < ((k' - k : ℤ) : K) := by
    push_cast
    push_cast at hdiff
    linarith
  have hhi : ((k' - k : ℤ) : K) < ((1 : ℤ) : K) := by
    push_cast
    push_cast at hdiff
    linarith
  have hlo' : (-1 : ℤ) < k' - k := Int.cast_lt.mp hlo
  have hhi' : k' - k < (1 : ℤ) := Int.cast_lt.mp hhi
  have hk : k' = k := by omega
  rw [hk', hk, h]

/-- For a triple that is not rejected as collinear, `createArcPathThroughMid` emits the path
of `arcThroughMid` for three angles that `norm360` has brought into [0, 360). -/
theorem createArcPathThroughMid_normalised (e : Extern K) (p1 p2 p3 : QPointF K)
    (hD : ¬ |detD p1 p2 p3| < collinearEps) :
    ∃ (rect : QRectF K) (a1 a2 a3 : K),
      createArcPathThroughMid e p1 p2 p3 = arcThroughMid rect a1 a2 a3 ∧
      (0 ≤ a1 ∧ a1 < 360) ∧ (0 ≤ a2 ∧ a2 < 360) ∧ (0 ≤ a3 ∧ a3 < 360) := by
  simp only [createArcPathThroughMid, if_neg hD]
  exact ⟨_, _, _, _, rfl, ⟨(norm360_mem _).1, (norm360_mem _).2.1⟩,
    ⟨(norm360_mem _).1, (norm360_mem _).2.1⟩, ⟨(norm360_mem _).1, (norm360_mem _).2.1⟩⟩

/-- For a triple that is not rejected as collinear, the path of `createArcPathThroughMid` is
the path of `arcThroughMid` for the bounding rectangle of the circle and the normalised
angles of the three points, in the order start, through, end. -/
theorem createArcPathThroughMid_eq (e : Extern K) (p1 p2 p3 : QPointF K)
    (hD : collinearEps ≤ |detD p1 p2 p3|) :
    createArcPathThroughMid e p1 p2 p3
      = arcThroughMid (arcRect e p1 p2 p3) (pointAngle e p1 p2 p3 p1)
          (pointAngle e p1 p2 p3 p2) (pointAngle e p1 p2 p3 p3) := by
  simp only [createArcPathThroughMid, if_neg (not_lt.mpr hD), arcRect, pointAngle, angleQt]

/-- C3: for every triple that is not rejected as collinear, the angles `a1`, `a2`, `a3`
that `createArcPathThroughMid` computes for the start, through and end point are
normalised into [0, 360) (each differs from the point's `angleQt` by a multiple of 360),
and the emitted path is: move to `a1`, a first sub-arc starting at `a1` with a sweep `s1`
such that `a1 + s1` is congruent to `a2` modulo 360, and a second sub-arc starting at `a2`
with a sweep `s2` such that `a2 + s2` is congruent to `a3` modulo 360. In the
counter-clockwise branch both sweeps are non-negative, in the other branch both are
non-positive. -/
theorem createArcPathThroughMid_passes_through (e : Extern K) (p1 p2 p3 : QPointF K)
    (hD : collinearEps ≤ |detD p1 p2 p3|) :
    ((0 ≤ pointAngle e p1 p2 p3 p1 ∧ pointAngle e p1 p2 p3 p1 < 360) ∧
     (0 ≤ pointAngle e p1 p2 p3 p2 ∧ pointAngle e p1 p2 p3 p2 < 360) ∧
     (0 ≤ pointAngle e p1 p2 p3 p3 ∧ pointAngle e p1 p2 p3 p3 < 360)) ∧
    ((∃ k : ℤ, pointAngle e p1 p2 p3 p1
        = angleQt e (centerX p1 p2 p3) (centerY p1 p2 p3) p1.x p1.y + 360 * k) ∧
     (∃ k : ℤ, pointAngle e p1 p2 p3 p2
        = angleQt e (centerX p1 p2 p3) (centerY p1 p2 p3) p2.x p2.y + 360 * k) ∧
     (∃ k : ℤ, pointAngle e p1 p2 p3 p3
        = angleQt e (centerX p1 p2 p3) (centerY p1 p2 p3) p3.x p3.y + 360 * k)) ∧
    ∃ s1 s2 : K,
      createArcPathThroughMid e p1 p2 p3
        = [.arcMoveTo (arcRect e p1 p2 p3) (pointAngle e p1 p2 p3 p1),
           .arcTo (arcRect e p1 p2 p3) (pointAngle e p1 p2 p3 p1) s1,
           .arcTo (arcRect e p1 p2 p3) (pointAngle e p1 p2 p3 p2) s2] ∧
      (∃ k : ℤ, pointAngle e p1 p2 p3 p1 + s1 - pointAngle e p1 p2 p3 p2 = 360 * k) ∧
      (∃ k : ℤ, pointAngle e p1 p2 p3 p2 + s2 - pointAngle e p1 p2 p3 p3 = 360 * k) ∧
      ((ccwDelta (pointAngle e p1 p2 p3 p1) (pointAngle e p1 p2 p3 p2)
          ≤ ccwDelta (pointAngle e p1 p2 p3 p1) (pointAngle e p1 p2 p3 p3) + 1 / 1000000000 ∧
        s1 = ccwDelta (pointAngle e p1 p2 p3 p1) (pointAngle e p1 p2 p3 p2) ∧
        s2 = ccwDelta (pointAngle e p1 p2 p3 p2) (pointAngle e p1 p2 p3 p3) ∧
        0 ≤ s1 ∧ 0 ≤ s2) ∨
       (¬ ccwDelta (pointAngle e p1 p2 p3 p1) (pointAngle e p1 p2 p3 p2)
          ≤ ccwDelta (pointAngle e p1 p2 p3 p1) (pointAngle e p1 p2 p3 p3) + 1 / 1000000000 ∧
        s1 = -ccwDelta (pointAngle e p1 p2 p3 p2) (pointAngle e p1 p2 p3 p1) ∧
        s2 = -ccwDelta (pointAngle e p1 p2 p3 p3) (pointAngle e p1 p2 p3 p2) ∧
        s1 ≤ 0 ∧ s2 ≤ 0)) := by
  have hn1 := norm360_mem (angleQt e (centerX p1 p2 p3) (centerY p1 p2 p3) p1.x p1.y)
  have hn2 := norm360_mem (angleQt e (centerX p1 p2 p3) (centerY p1 p2 p3) p2.x p2.y)
  have hn3 := norm360_mem (angleQt e (centerX p1 p2 p3) (centerY p1 p2 p3) p3.x p3.y)
  have hr1 : 0 ≤ pointAngle e p1 p2 p3 p1 ∧ pointAngle e p1 p2 p3 p1 < 360 :=
    ⟨hn1.1, hn1.2.1⟩
  have hr2 : 0 ≤ pointAngle e p1 p2 p3 p2 ∧ pointAngle e p1 p2 p3 p2 < 360 :=
    ⟨hn2.1, hn2.2.1⟩
  have hr3 : 0 ≤ pointAngle e p1 p2 p3 p3 ∧ pointAngle e p1 p2 p3 p3 < 360 :=
    ⟨hn3.1, hn3.2.1⟩
  have hpath := createArcPathThroughMid_eq e p1 p2 p3 hD
  obtain ⟨s1, s2, hs, hc1, hc2, hbr⟩ :=
    arcThroughMid_congruent (arcRect e p1 p2 p3) (pointAngle e p1 p2 p3 p1)
      (pointAngle e p1 p2 p3 p2) (pointAngle e p1 p2 p3 p3)
  refine ⟨⟨hr1, hr2, hr3⟩, ⟨hn1.2.2, hn2.2.2, hn3.2.2⟩, s1, s2, by rw [hpath, hs], hc1, hc2, ?_⟩
  rcases hbr with ⟨hb, h1, h2⟩ | ⟨hb, h1, h2⟩
  · exact Or.inl ⟨hb, h1, h2, by rw [h1]; exact ccwDelta_nonneg _ _ hr1 hr2,
      by rw [h2]; exact ccwDelta_nonneg _ _ hr2 hr3⟩
  · exact Or.inr ⟨hb, h1, h2, by rw [h1]; exact neg_nonpos.mpr (ccwDelta_nonneg _ _ hr2 hr1),
      by rw [h2]; exact neg_nonpos.mpr (ccwDelta_nonneg _ _ hr3 hr2)⟩

/-- The half turn `π` in the degrees of the scene, `π * 180 / PI`, is between 179 and 181. -/
theorem half_turn_bounds :
    (179 : ℝ) < Real.pi * 180 / PI ∧ Real.pi * 180 / PI < 181 := by
  have hpi : (0 : ℝ) < PI := PI_pos
  have hlo := Real.pi_gt_d2
  have hhi := Real.pi_lt_d2
  constructor
  · rw [lt_div_iff₀ hpi]
    norm_num [PI] at hlo hhi ⊢
    linarith
  · rw [div_lt_iff₀ hpi]
    norm_num [PI] at hlo hhi ⊢
    linarith

/-- The Arc scenario of the spec with the real `atan2`: around the center (10,0) the points
(0,0), (10,10), (20,0) get the normalised angles `π * 180 / PI` (about 180),
`360 - π * 180 / PI / 2` (about 270: the scene's y axis points down) and 0. -/
theorem arc_scenario_angles (e : Extern ℝ)
    (hatan : ∀ y x : ℝ, e.atan2 y x = Complex.arg ⟨x, y⟩) :
    pointAngle e ⟨0, 0⟩ ⟨10, 10⟩ ⟨20, 0⟩ ⟨0, 0⟩ = Real.pi * 180 / PI ∧
    pointAngle e ⟨0, 0⟩ ⟨10, 10⟩ ⟨20, 0⟩ ⟨10, 10⟩ = 360 - Real.pi * 180 / PI / 2 ∧
    pointAngle e ⟨0, 0⟩ ⟨10, 10⟩ ⟨20, 0⟩ ⟨20, 0⟩ = 0 := by
  obtain ⟨hlo, hhi⟩ := half_turn_bounds
  have hcx : centerX (⟨0, 0⟩ : QPointF ℝ) ⟨10, 10⟩ ⟨20, 0⟩ = 10 := by
    norm_num [centerX, detD]
  have hcy : centerY (⟨0, 0⟩ : QPointF ℝ) ⟨10, 10⟩ ⟨20, 0⟩ = 0 := by
    norm_num [centerY, detD]
  have h1 : Complex.arg ⟨0 - 10, -(0 - 0)⟩ = Real.pi := by
    have h : (⟨0 - 10, -(0 - 0)⟩ : ℂ) = ((-10 : ℝ) : ℂ) := by
      apply Complex.ext <;> norm_num
    rw [h, Complex.arg_ofReal_of_neg (by norm_num)]
  have h2 : Complex.arg ⟨10 - 10, -(10 - 0)⟩ = -(Real.pi / 2) := by
    have h : (⟨10 - 10, -(10 - 0)⟩ : ℂ) = ((10 : ℝ) : ℂ) * (-Complex.I) := by
      apply Complex.ext <;> norm_num
    rw [h, Complex.arg_real_mul _ (by norm_num), Complex.arg_neg_I]
  have h3 : Complex.arg ⟨20 - 10, -(0 - 0)⟩ = 0 := by
    have h : (⟨20 - 10, -(0 - 0)⟩ : ℂ) = ((10 : ℝ) : ℂ) := by
      apply Complex.ext <;> norm_num
    rw [h, Complex.arg_ofReal_of_nonneg (by norm_num)]
  simp only [pointAngle, angleQt, hcx, hcy, hatan, h1, h2, h3]
  refine ⟨norm360_eq _ _ 0 ⟨by linarith, by linarith⟩ (by push_cast; ring),
    norm360_eq _ _ 1 ⟨by linarith, by linarith⟩ (by push_cast; ring),
    norm360_eq _ _ 0 ⟨le_refl _, by norm_num⟩ (by push_cast; ring)⟩

/-- An instance of C3, the Arc scenario of the spec on real numbers with the real
`atan2`: for the points (0,0), (10,10), (20,0) the
path starts at the angle of (0,0) (about 180), turns counter-clockwise by about 90 to the
angle of (10,10) (about 270), and by about 90 again to the angle 0 of (20,0), on the circle
of radius 10 around (10,0). -/
theorem createArcPathThroughMid_passes_through_witness :
    (collinearEps : ℝ) ≤ |detD (⟨0, 0⟩ : QPointF ℝ) ⟨10, 10⟩ ⟨20, 0⟩| ∧
    createArcPathThroughMid
        ⟨Real.sqrt, fun x => some (Real.arccos x), fun y x => Complex.arg ⟨x, y⟩,
          fun _ _ => false⟩ ⟨0, 0⟩ ⟨10, 10⟩ ⟨20, 0⟩
      = [.arcMoveTo ⟨0, -10, 20, 20⟩ (Real.pi * 180 / PI),
         .arcTo ⟨0, -10, 20, 20⟩ (Real.pi * 180 / PI) (180 - Real.pi * 180 / PI / 2 * 3 + 180),
         .arcTo ⟨0, -10, 20, 20⟩ (360 - Real.pi * 180 / PI / 2) (Real.pi * 180 / PI / 2)] := by
  obtain ⟨hlo, hhi⟩ := half_turn_bounds
  have hD : (collinearEps : ℝ) ≤ |detD (⟨0, 0⟩ : QPointF ℝ) ⟨10, 10⟩ ⟨20, 0⟩| := by
    norm_num [collinearEps, detD, abs_of_neg]
  obtain ⟨ha1, ha2, ha3⟩ := arc_scenario_angles
    ⟨Real.sqrt, fun x => some (Real.arccos x), fun y x => Complex.arg ⟨x, y⟩,
      fun _ _ => false⟩ (fun _ _ => rfl)
  have hrect : arcRect
      ⟨Real.sqrt, fun x => some (Real.arccos x), fun y x => Complex.arg ⟨x, y⟩,
        fun _ _ => false⟩ (⟨0, 0⟩ : QPointF ℝ) ⟨10, 10⟩ ⟨20, 0⟩ = ⟨0, -10, 20, 20⟩ := by
    have hcx : centerX (⟨0, 0⟩ : QPointF ℝ) ⟨10, 10⟩ ⟨20, 0⟩ = 10 := by
      norm_num [centerX, detD]
    have hcy : centerY (⟨0, 0⟩ : QPointF ℝ) ⟨10, 10⟩ ⟨20, 0⟩ = 0 := by
      norm_num [centerY, detD]
    have h10 : Real.sqrt ((10 - 0) * (10 - 0) + (0 - 0) * (0 - 0)) = 10 := by
      rw [show ((10 : ℝ) - 0) * (10 - 0) + (0 - 0) * (0 - 0) = 10 ^ 2 by norm_num]
      exact Real.sqrt_sq (by norm_num)
    simp only [arcRect, hcx, hcy, h10]
    norm_num
  obtain ⟨_, _, s1, s2, hpath, _, _, hbr⟩ :=
    createArcPathThroughMid_passes_through
      ⟨Real.sqrt, fun x => some (Real.arccos x), fun y x => Complex.arg ⟨x, y⟩,
        fun _ _ => false⟩ ⟨0, 0⟩ ⟨10, 10⟩ ⟨20, 0⟩ hD
  rw [ha1, ha2, hrect] at hpath
  rw [ha1, ha2, ha3] at hbr
  have hmid : ccwDelta (Real.pi * 180 / PI) (360 - Real.pi * 180 / PI / 2)
      = 180 - Real.pi * 180 / PI / 2 * 3 + 180 := by
    rw [ccwDelta, if_neg (by linarith)]
    ring
  have htot : ccwDelta (Real.pi * 180 / PI) 0 = 360 - Real.pi * 180 / PI := by
    rw [ccwDelta, if_pos (by linarith)]
    ring
  have hend : ccwDelta (360 - Real.pi * 180 / PI / 2) 0 = Real.pi * 180 / PI / 2 := by
    rw [ccwDelta, if_pos (by linarith)]
    ring
  rcases hbr with ⟨_, h1, h2, _, _⟩ | ⟨hb, _, _, _, _⟩
  · rw [hmid] at h1
    rw [hend] at h2
    rw [h1, h2] at hpath
    exact ⟨hD, hpath⟩
  · exfalso
    apply hb
    rw [hmid, htot]
    linarith

/-- Bounds on the arc sine of a number between 0 and 1. -/
theorem arcsin_bounds (u : ℝ) (h0 : 0 ≤ u) (h1 : u ≤ 1) :
    u ≤ Real.arcsin u ∧ Real.arcsin u ≤ 2 * u := by
  have hb0 : 0 ≤ Real.arcsin u := Real.arcsin_nonneg.mpr h0
  have hs : Real.sin (Real.arcsin u) = u := Real.sin_arcsin (by linarith) h1
  have h2 := Real.sin_le hb0
  rw [hs] at h2
  have h3 := Real.mul_le_sin hb0 (Real.arcsin_le_pi_div_two u)
  rw [hs] at h3
  have hpi := Real.pi_pos
  have hpi4 := Real.pi_lt_four
  refine ⟨h2, ?_⟩
  have h4 : Real.arcsin u ≤ u * (Real.pi / 2) := by
    have h5 : 2 / Real.pi * Real.arcsin u * (Real.pi / 2) ≤ u * (Real.pi / 2) :=
      mul_le_mul_of_nonneg_right h3 (by positivity)
    have h6 : 2 / Real.pi * Real.arcsin u * (Real.pi / 2) = Real.arcsin u := by
      field_simp
    linarith
  nlinarith

/-- The triple (1000,0), (-1000,0.000000004), (-1000,0) with the real `atan2`: the
through point is 4e-9 pixels from the end point. Around the computed center (0, 2e-9) the
three normalised angles are `b`, `b - H + 360` and `H - b`, where `H = π * 180 / PI` is
the half turn (about 180) and `b` is between 1e-10 and 3e-10 degrees. -/
theorem near_end_angles (e : Extern ℝ)
    (hatan : ∀ y x : ℝ, e.atan2 y x = Complex.arg ⟨x, y⟩) :
    ∃ b H : ℝ, 1 / 10000000000 < b ∧ b < 3 / 10000000000 ∧
      |H - 180| < 1 / 1000000000000000 ∧
      pointAngle e ⟨1000, 0⟩ ⟨-1000, 1 / 250000000⟩ ⟨-1000, 0⟩ ⟨1000, 0⟩ = b ∧
      pointAngle e ⟨1000, 0⟩ ⟨-1000, 1 / 250000000⟩ ⟨-1000, 0⟩ ⟨-1000, 1 / 250000000⟩
        = b - H + 360 ∧
      pointAngle e ⟨1000, 0⟩ ⟨-1000, 1 / 250000000⟩ ⟨-1000, 0⟩ ⟨-1000, 0⟩ = H - b := by
  have hpi : (0 : ℝ) < PI := PI_pos
  have hlo := Real.pi_gt_d20
  have hhi := Real.pi_lt_d20
  have hcx : centerX (⟨1000, 0⟩ : QPointF ℝ) ⟨-1000, 1 / 250000000⟩ ⟨-1000, 0⟩ = 0 := by
    norm_num [centerX, detD]
  have hcy : centerY (⟨1000, 0⟩ : QPointF ℝ) ⟨-1000, 1 / 250000000⟩ ⟨-1000, 0⟩
      = 1 / 500000000 := by
    norm_num [centerY, detD]
  -- the common modulus of the three vectors from the center and its bounds
  have hwlo : (1000 : ℝ) ≤ Complex.abs ⟨1000, 1 / 500000000⟩ := by
    have h := Complex.abs_re_le_abs (⟨1000, 1 / 500000000⟩ : ℂ)
    simp only at h
    rw [abs_of_pos (by norm_num : (0 : ℝ) < 1000)] at h
    exact h
  have hwhi : Complex.abs ⟨1000, 1 / 500000000⟩ ≤ 1001 := by
    have h := Complex.abs_le_abs_re_add_abs_im (⟨1000, 1 / 500000000⟩ : ℂ)
    simp only at h
    rw [abs_of_pos (by norm_num : (0 : ℝ) < 1000),
      abs_of_pos (by norm_num : (0 : ℝ) < 1 / 500000000)] at h
    linarith
  have hw2 : Complex.abs ⟨-1000, -(1 / 500000000)⟩ = Complex.abs ⟨1000, 1 / 500000000⟩ := by
    rw [Complex.abs_apply, Complex.abs_apply, Complex.normSq_mk, Complex.normSq_mk]
    norm_num
  have hw3 : Complex.abs ⟨-1000, 1 / 500000000⟩ = Complex.abs ⟨1000, 1 / 500000000⟩ := by
    rw [Complex.abs_apply, Complex.abs_apply, Complex.normSq_mk, Complex.normSq_mk]
    norm_num
  have hwpos : (0 : ℝ) < Complex.abs ⟨1000, 1 / 500000000⟩ := by linarith
  -- the small angle and its bounds
  have hu0 : 0 ≤ 1 / 500000000 / Complex.abs ⟨1000, 1 / 500000000⟩ := by positivity
  have huhi : 1 / 500000000 / Complex.abs ⟨1000, 1 / 500000000⟩ ≤ 1 / 500000000000 := by
    rw [div_le_iff₀ hwpos]
    linarith
  have hulo : 1 / 500500000000 ≤ 1 / 500000000 / Complex.abs ⟨1000, 1 / 500000000⟩ := by
    rw [le_div_iff₀ hwpos]
    linarith
  obtain ⟨hβlo, hβhi⟩ := arcsin_bounds _ hu0 (by linarith)
  -- the three angles in radians
  have h1 : Complex.arg ⟨1000 - 0, -(0 - 1 / 500000000)⟩
      = Real.arcsin (1 / 500000000 / Complex.abs ⟨1000, 1 / 500000000⟩) := by
    have hz : (⟨1000 - 0, -(0 - 1 / 500000000)⟩ : ℂ) = ⟨1000, 1 / 500000000⟩ := by
      apply Complex.ext <;> norm_num
    rw [hz, Complex.arg_of_re_nonneg (by norm_num)]
  have h2 : Complex.arg ⟨-1000 - 0, -(1 / 250000000 - 1 / 500000000)⟩
      = Real.arcsin (1 / 500000000 / Complex.abs ⟨1000, 1 / 500000000⟩) - Real.pi := by
    have hz : (⟨-1000 - 0, -(1 / 250000000 - 1 / 500000000)⟩ : ℂ)
        = ⟨-1000, -(1 / 500000000)⟩ := by
      apply Complex.ext <;> norm_num
    rw [hz, Complex.arg_of_re_neg_of_im_neg (by norm_num) (by norm_num), hw2]
    simp
  have h3 : Complex.arg ⟨-1000 - 0, -(0 - 1 / 500000000)⟩
      = Real.pi - Real.arcsin (1 / 500000000 / Complex.abs ⟨1000, 1 / 500000000⟩) := by
    have hz : (⟨-1000 - 0, -(0 - 1 / 500000000)⟩ : ℂ) = ⟨-1000, 1 / 500000000⟩ := by
      apply Complex.ext <;> norm_num
    rw [hz, Complex.arg_of_re_neg_of_im_nonneg (by norm_num) (by norm_num), hw3]
    have hneg : (-(⟨-1000, 1 / 500000000⟩ : ℂ)).im = -(1 / 500000000) := by simp
    rw [hneg, neg_div, Real.arcsin_neg]
    ring
  -- degrees
  have hb1 : 1 / 10000000000
      < Real.arcsin (1 / 500000000 / Complex.abs ⟨1000, 1 / 500000000⟩) * 180 / PI := by
    rw [lt_div_iff₀ hpi]
    norm_num [PI] at hβlo hulo ⊢
    linarith
  have hb2 : Real.arcsin (1 / 500000000 / Complex.abs ⟨1000, 1 / 500000000⟩) * 180 / PI
      < 3 / 10000000000 := by
    rw [div_lt_iff₀ hpi]
    norm_num [PI] at hβhi huhi ⊢
    linarith
  have hH : |Real.pi * 180 / PI - 180| < 1 / 1000000000000000 := by
    rw [abs_lt]
    constructor
    · rw [lt_sub_iff_add_lt, lt_div_iff₀ hpi]
      norm_num [PI] at hlo hhi ⊢
      linarith
    · rw [sub_lt_iff_lt_add, div_lt_iff₀ hpi]
      norm_num [PI] at hlo hhi ⊢
      linarith
  obtain ⟨hH1, hH2⟩ := abs_lt.mp hH
  refine ⟨Real.arcsin (1 / 500000000 / Complex.abs ⟨1000, 1 / 500000000⟩) * 180 / PI,
    Real.pi * 180 / PI, hb1, hb2, hH, ?_, ?_, ?_⟩
  · simp only [pointAngle, angleQt, hcx, hcy, hatan, h1]
    exact norm360_eq _ _ 0 ⟨by linarith, by linarith⟩ (by push_cast; ring)
  · simp only [pointAngle, angleQt, hcx, hcy, hatan, h2]
    exact norm360_eq _ _ 1 ⟨by linarith, by linarith⟩ (by push_cast; ring)
  · simp only [pointAngle, angleQt, hcx, hcy, hatan, h3]
    exact norm360_eq _ _ 0 ⟨by linarith, by linarith⟩ (by push_cast; ring)

/-- C16, evaluated where it fails, with the real square root and `atan2`: the triple
(1000,0), (-1000,0.000000004), (-1000,0) is accepted (`|D| = 1.6e-5`), and the through
point is just past the end point, so `ccwMid` exceeds `ccwTotal`, by less than 1e-9. The
counter-clockwise branch is taken; the first sweep is `ccwMid`, but the second sweep is
not `ccwTotal - ccwMid`: the two sweeps add up to `ccwTotal + 360`, more than 539
degrees, not to `ccwTotal`, and not below 360. -/
theorem arc_near_end_full_turn :
    (collinearEps : ℝ) ≤ |detD (⟨1000, 0⟩ : QPointF ℝ) ⟨-1000, 1 / 250000000⟩ ⟨-1000, 0⟩| ∧
    ∃ (rect : QRectF ℝ) (a1 a2 a3 s1 s2 : ℝ),
      a1 = pointAngle ⟨Real.sqrt, fun x => some (Real.arccos x),
        fun y x => Complex.arg ⟨x, y⟩, fun _ _ => false⟩
        ⟨1000, 0⟩ ⟨-1000, 1 / 250000000⟩ ⟨-1000, 0⟩ ⟨1000, 0⟩ ∧
      a2 = pointAngle ⟨Real.sqrt, fun x => some (Real.arccos x),
        fun y x => Complex.arg ⟨x, y⟩, fun _ _ => false⟩
        ⟨1000, 0⟩ ⟨-1000, 1 / 250000000⟩ ⟨-1000, 0⟩ ⟨-1000, 1 / 250000000⟩ ∧
      a3 = pointAngle ⟨Real.sqrt, fun x => some (Real.arccos x),
        fun y x => Complex.arg ⟨x, y⟩, fun _ _ => false⟩
        ⟨1000, 0⟩ ⟨-1000, 1 / 250000000⟩ ⟨-1000, 0⟩ ⟨-1000, 0⟩ ∧
      createArcPathThroughMid ⟨Real.sqrt, fun x => some (Real.arccos x),
        fun y x => Complex.arg ⟨x, y⟩, fun _ _ => false⟩
        ⟨1000, 0⟩ ⟨-1000, 1 / 250000000⟩ ⟨-1000, 0⟩
        = [.arcMoveTo rect a1, .arcTo rect a1 s1, .arcTo rect a2 s2] ∧
      ccwDelta a1 a3 < ccwDelta a1 a2 ∧
      ccwDelta a1 a2 ≤ ccwDelta a1 a3 + 1 / 1000000000 ∧
      s1 = ccwDelta a1 a2 ∧
      s2 ≠ ccwDelta a1 a3 - ccwDelta a1 a2 ∧
      s1 + s2 = ccwDelta a1 a3 + 360 ∧
      539 < s1 + s2 := by
  have hD : (collinearEps : ℝ)
      ≤ |detD (⟨1000, 0⟩ : QPointF ℝ) ⟨-1000, 1 / 250000000⟩ ⟨-1000, 0⟩| := by
    norm_num [collinearEps, detD, abs_of_pos]
  obtain ⟨b, H, hb1, hb2, hH, ha1, ha2, ha3⟩ := near_end_angles
    ⟨Real.sqrt, fun x => some (Real.arccos x), fun y x => Complex.arg ⟨x, y⟩,
      fun _ _ => false⟩ (fun _ _ => rfl)
  obtain ⟨hH1, hH2⟩ := abs_lt.mp hH
  have hpath := createArcPathThroughMid_eq
    ⟨Real.sqrt, fun x => some (Real.arccos x), fun y x => Complex.arg ⟨x, y⟩,
      fun _ _ => false⟩ ⟨1000, 0⟩ ⟨-1000, 1 / 250000000⟩ ⟨-1000, 0⟩ hD
  rw [ha1, ha2, ha3] at hpath
  have hmid : ccwDelta b (b - H + 360) = 360 - H := by
    rw [ccwDelta, if_neg (by linarith)]
    ring
  have htot : ccwDelta b (H - b) = H - 2 * b := by
    rw [ccwDelta, if_neg (by linarith)]
    ring
  have hend : ccwDelta (b - H + 360) (H - b) = 2 * H - 2 * b := by
    rw [ccwDelta, if_pos (by linarith)]
    ring
  have hbr : ccwDelta b (b - H + 360) ≤ ccwDelta b (H - b) + 1 / 1000000000 := by
    rw [hmid, htot]
    linarith
  simp only [arcThroughMid, hbr, decide_True, if_true, List.cons_append, List.nil_append]
    at hpath
  refine ⟨hD, _, b, b - H + 360, H - b, _, _, ha1.symm, ha2.symm, ha3.symm, hpath, ?_, hbr,
    rfl, ?_, ?_, ?_⟩
  · rw [hmid, htot]
    linarith
  · rw [hmid, htot, hend]
    intro h
    linarith
  · rw [hmid, htot, hend]
    ring
  · rw [hmid, hend]
    linarith

/-- C4: in Arc mode with two buffered points, a third click that makes the triple
collinear or nearly so (`|D| < 1e-5`) creates no record and leaves the store as it was,
emits the collinearity notice (and the completion message), empties the buffer and sets
the mode to None. -/
theorem arc_collinear_click (e : Extern K) (s : CanvasScene K) (p1 p2 p3 : QPointF K)
    (hm : s.currentMode = .Arc) (hb : s.currentPoints = [p1, p2])
    (hD : |detD p1 p2 p3| < collinearEps) :
    (mousePressEvent e s p3).measureItems = s.measureItems ∧
    (mousePressEvent e s p3).emitted = s.emitted ++
      [.messageChanged "三点共线，无法绘制圆弧", .messageChanged "圆弧绘制完成。",
       .modeChanged .None] ∧
    (mousePressEvent e s p3).currentPoints = [] ∧
    (mousePressEvent e s p3).currentMode = .None := by
  simp [mousePressEvent, hm, hb, finishArc, hD, emit, setMode]

/-- An instance of C4 on rationals: Arc tool, clicks (0,0), (10,10), then (20,20): the
store stays empty, the buffer is emptied and the mode is None. -/
theorem arc_collinear_click_witness :
    |detD (⟨0, 0⟩ : QPointF ℚ) ⟨10, 10⟩ ⟨20, 20⟩| < collinearEps ∧
    (run ⟨id, some, fun _ _ => 0, fun _ _ => false⟩ (init : CanvasScene ℚ)
      [.setMode .Arc, .click ⟨0, 0⟩, .click ⟨10, 10⟩, .click ⟨20, 20⟩]).measureItems = [] ∧
    (run ⟨id, some, fun _ _ => 0, fun _ _ => false⟩ (init : CanvasScene ℚ)
      [.setMode .Arc, .click ⟨0, 0⟩, .click ⟨10, 10⟩, .click ⟨20, 20⟩]).currentPoints = [] ∧
    (run ⟨id, some, fun _ _ => 0, fun _ _ => false⟩ (init : CanvasScene ℚ)
      [.setMode .Arc, .click ⟨0, 0⟩, .click ⟨10, 10⟩, .click ⟨20, 20⟩]).currentMode = .None :=
  have hD : |detD (⟨0, 0⟩ : QPointF ℚ) ⟨10, 10⟩ ⟨20, 20⟩| < collinearEps := by
    norm_num [detD, collinearEps]
  have h := arc_collinear_click (⟨id, some, fun _ _ => 0, fun _ _ => false⟩ : Extern ℚ)
    (run ⟨id, some, fun _ _ => 0, fun _ _ => false⟩ (init : CanvasScene ℚ)
      [.setMode .Arc, .click ⟨0, 0⟩, .click ⟨10, 10⟩])
    ⟨0, 0⟩ ⟨10, 10⟩ ⟨20, 20⟩ rfl rfl hD
  ⟨hD, h.1, h.2.2.1, h.2.2.2⟩

/-- C5: in Distance mode with a selected line from `A` to `B`, `A ≠ B`, a click at `P`
appends a Distance record (type 2) anchored at `[P, Q]`, where `Q = A + t (B - A)` and
`t = ((P - A)·(B - A)) / |B - A|²` is used as it is (no clamping to [0, 1]), and
`(P - Q)·(B - A) = 0`. -/
theorem distance_click_projects (e : Extern K) (s : CanvasScene K) (sel : LineItemPtr K)
    (A B P : QPointF K) (hm : s.currentMode = .Distance)
    (hsel : s.selectedLineForDist = some sel) (hl : sel.line = ⟨A, B⟩) (hAB : A ≠ B) :
    ∃ (r : MeasureItem K) (Q : QPointF K) (t : K),
      (mousePressEvent e s P).measureItems = s.measureItems ++ [r] ∧
      r.type = 2 ∧ r.points = [P, Q] ∧
      t = ((P.x - A.x) * (B.x - A.x) + (P.y - A.y) * (B.y - A.y))
            / ((B.x - A.x) * (B.x - A.x) + (B.y - A.y) * (B.y - A.y)) ∧
      Q = ⟨A.x + t * (B.x - A.x), A.y + t * (B.y - A.y)⟩ ∧
      (P.x - Q.x) * (B.x - A.x) + (P.y - Q.y) * (B.y - A.y) = 0 := by
  have hperp := projPoint_perp ⟨A, B⟩ P hAB
  refine ⟨⟨2, .line ⟨P, projPoint ⟨A, B⟩ P⟩,
      ⟨.distance (toMm s (dist e P (projPoint ⟨A, B⟩ P))),
        ⟨(P.x + (projPoint ⟨A, B⟩ P).x) / 2, (P.y + (projPoint ⟨A, B⟩ P).y) / 2⟩⟩,
      [P, projPoint ⟨A, B⟩ P], []⟩,
    projPoint ⟨A, B⟩ P, _, ?_, rfl, rfl, rfl, rfl, hperp⟩
  simp [mousePressEvent, hm, hsel, hl, finishDistance, emit, setMode, toMm]

/-- An instance of C5 on rationals: after a Line record (0,0)–(10,0) is drawn and selected
in Distance mode, the click (20,5) gives `t = 2` and the anchor points `[(20,5), (20,0)]`:
the projected point is outside the segment. -/
theorem distance_click_projects_witness :
    (⟨0, 0⟩ : QPointF ℚ) ≠ ⟨10, 0⟩ ∧
    ∃ (r : MeasureItem ℚ) (Q : QPointF ℚ) (t : ℚ),
      (mousePressEvent ⟨id, some, fun _ _ => 0, fun _ _ => true⟩
        (run ⟨id, some, fun _ _ => 0, fun _ _ => true⟩ init
          [.setMode .Line, .click ⟨0, 0⟩, .click ⟨10, 0⟩, .setMode .Distance, .click ⟨5, 0⟩])
        ⟨20, 5⟩).measureItems
        = (run ⟨id, some, fun _ _ => 0, fun _ _ => true⟩ init
          [.setMode .Line, .click ⟨0, 0⟩, .click ⟨10, 0⟩, .setMode .Distance,
           .click ⟨5, 0⟩]).measureItems ++ [r] ∧
      r.type = 2 ∧ r.points = [⟨20, 5⟩, Q] ∧
      t = (((20 : ℚ) - 0) * (10 - 0) + (5 - 0) * (0 - 0))
            / ((10 - 0) * (10 - 0) + (0 - 0) * (0 - 0)) ∧
      Q = ⟨0 + t * (10 - 0), 0 + t * (0 - 0)⟩ ∧
      (20 - Q.x) * (10 - 0) + (5 - Q.y) * (0 - 0) = 0 :=
  have hne : (⟨0, 0⟩ : QPointF ℚ) ≠ ⟨10, 0⟩ := by
    intro h
    have hx := congrArg QPointF.x h
    norm_num at hx
  ⟨hne, distance_click_projects ⟨id, some, fun _ _ => 0, fun _ _ => true⟩
    (run ⟨id, some, fun _ _ => 0, fun _ _ => true⟩ init
      [.setMode .Line, .click ⟨0, 0⟩, .click ⟨10, 0⟩, .setMode .Distance, .click ⟨5, 0⟩])
    ⟨.measure 0, ⟨⟨0, 0⟩, ⟨10, 0⟩⟩⟩ ⟨0, 0⟩ ⟨10, 0⟩ ⟨20, 5⟩ rfl rfl rfl hne⟩

/-- C6: with the real square root, in Distance mode with a selected line from `A` to `B`,
`A ≠ B`, a click at `P` appends a Distance record anchored at `[P, Q]` where
`Q = A + t (B - A)` is a point of the infinite line through `A` and `B`
(`t = ((P - A)·(B - A)) / |B - A|²`), `P - Q` is perpendicular to the line, and `Q` is the
closest point of the line to `P`: `distance (P, Q) ≤ distance (P, A + σ (B - A))` for every
real `σ`, with equality only at `σ = t`. The label shows `distance (P, Q) / scale`, so the
recorded value times the scale factor is the perpendicular point-to-line distance. -/
theorem distance_click_closest_point (e : Extern ℝ) (s : CanvasScene ℝ) (sel : LineItemPtr ℝ)
    (A B P : QPointF ℝ) (hsqrt : e.sqrt = Real.sqrt) (hs : 0 < s.scaleRatio)
    (hm : s.currentMode = .Distance) (hsel : s.selectedLineForDist = some sel)
    (hl : sel.line = ⟨A, B⟩) (hAB : A ≠ B) :
    ∃ (r : MeasureItem ℝ) (Q : QPointF ℝ) (t : ℝ),
      (mousePressEvent e s P).measureItems = s.measureItems ++ [r] ∧
      r.type = 2 ∧ r.points = [P, Q] ∧
      t = ((P.x - A.x) * (B.x - A.x) + (P.y - A.y) * (B.y - A.y))
            / ((B.x - A.x) * (B.x - A.x) + (B.y - A.y) * (B.y - A.y)) ∧
      Q = ⟨A.x + t * (B.x - A.x), A.y + t * (B.y - A.y)⟩ ∧
      (P.x - Q.x) * (B.x - A.x) + (P.y - Q.y) * (B.y - A.y) = 0 ∧
      (∀ σ : ℝ, dist e P Q ≤ dist e P ⟨A.x + σ * (B.x - A.x), A.y + σ * (B.y - A.y)⟩) ∧
      (∀ σ : ℝ, dist e P ⟨A.x + σ * (B.x - A.x), A.y + σ * (B.y - A.y)⟩ = dist e P Q →
        σ = t) ∧
      r.textItem.text = .distance (dist e P Q / s.scaleRatio) ∧
      dist e P Q / s.scaleRatio * s.scaleRatio = dist e P Q := by
  have hd0 := line_sq_length_ne_zero ⟨A, B⟩ hAB
  have hd : 0 ≤ (B.x - A.x) * (B.x - A.x) + (B.y - A.y) * (B.y - A.y) :=
    add_nonneg (mul_self_nonneg _) (mul_self_nonneg _)
  have hsq := projPoint_sq_dist ⟨A, B⟩ P hAB
  simp only at hsq hd0
  refine ⟨⟨2, .line ⟨P, projPoint ⟨A, B⟩ P⟩,
      ⟨.distance (toMm s (dist e P (projPoint ⟨A, B⟩ P))),
        ⟨(P.x + (projPoint ⟨A, B⟩ P).x) / 2, (P.y + (projPoint ⟨A, B⟩ P).y) / 2⟩⟩,
      [P, projPoint ⟨A, B⟩ P], []⟩,
    projPoint ⟨A, B⟩ P, _, ?_, rfl, rfl, rfl, rfl, projPoint_perp ⟨A, B⟩ P hAB, ?_, ?_, rfl,
    div_mul_cancel₀ _ (ne_of_gt hs)⟩
  · simp [mousePressEvent, hm, hsel, hl, finishDistance, emit, setMode, toMm]
  · intro σ
    simp only [dist, hsqrt]
    apply Real.sqrt_le_sqrt
    rw [hsq σ]
    exact le_add_of_nonneg_right (mul_nonneg (sq_nonneg _) hd)
  · intro σ hσ
    simp only [dist, hsqrt] at hσ
    have hnn : 0 ≤ (P.x - (projPoint ⟨A, B⟩ P).x) ^ 2 + (P.y - (projPoint ⟨A, B⟩ P).y) ^ 2 :=
      add_nonneg (sq_nonneg _) (sq_nonneg _)
    have hnn2 : 0 ≤ (P.x - (A.x + σ * (B.x - A.x))) ^ 2 + (P.y - (A.y + σ * (B.y - A.y))) ^ 2 :=
      add_nonneg (sq_nonneg _) (sq_nonneg _)
    have heq := (Real.sqrt_inj hnn2 hnn).mp hσ
    rw [hsq σ] at heq
    have hz : (σ - ((P.x - A.x) * (B.x - A.x) + (P.y - A.y) * (B.y - A.y))
        / ((B.x - A.x) * (B.x - A.x) + (B.y - A.y) * (B.y - A.y))) ^ 2
        * ((B.x - A.x) * (B.x - A.x) + (B.y - A.y) * (B.y - A.y)) = 0 := by
      linarith
    rcases mul_eq_zero.mp hz with h0 | h0
    · exact sub_eq_zero.mp (pow_eq_zero_iff (by norm_num) |>.mp h0)
    · exact absurd h0 hd0

/-- The scenario of C6 on real numbers: after a Line record (0,0)–(10,0) is drawn and
selected in Distance mode, the click (20,5) records the foot (20,0) of the perpendicular,
which is outside the segment, and the label shows the distance 5 (scale 1); every point of
the line is at least 5 away from (20,5). -/
theorem distance_click_closest_point_witness :
    (⟨0, 0⟩ : QPointF ℝ) ≠ ⟨10, 0⟩ ∧
    ∃ r : MeasureItem ℝ,
      (mousePressEvent ⟨Real.sqrt, fun x => some (Real.arccos x), fun _ _ => 0, fun _ _ => true⟩
        (run ⟨Real.sqrt, fun x => some (Real.arccos x), fun _ _ => 0, fun _ _ => true⟩ init
          [.setMode .Line, .click ⟨0, 0⟩, .click ⟨10, 0⟩, .setMode .Distance, .click ⟨5, 0⟩])
        ⟨20, 5⟩).measureItems
        = (run ⟨Real.sqrt, fun x => some (Real.arccos x), fun _ _ => 0, fun _ _ => true⟩ init
          [.setMode .Line, .click ⟨0, 0⟩, .click ⟨10, 0⟩, .setMode .Distance,
           .click ⟨5, 0⟩]).measureItems ++ [r] ∧
      r.type = 2 ∧ r.points = [⟨20, 5⟩, ⟨20, 0⟩] ∧ r.textItem.text = .distance 5 ∧
      ∀ σ : ℝ, (5 : ℝ)
        ≤ dist ⟨Real.sqrt, fun x => some (Real.arccos x), fun _ _ => 0, fun _ _ => true⟩ ⟨20, 5⟩
            ⟨0 + σ * (10 - 0), 0 + σ * (0 - 0)⟩ := by
  have hne : (⟨0, 0⟩ : QPointF ℝ) ≠ ⟨10, 0⟩ := by
    intro h
    have hx := congrArg QPointF.x h
    norm_num at hx
  have hscale : (run ⟨Real.sqrt, fun x => some (Real.arccos x), fun _ _ => 0, fun _ _ => true⟩
      (init : CanvasScene ℝ)
      [.setMode .Line, .click ⟨0, 0⟩, .click ⟨10, 0⟩, .setMode .Distance,
       .click ⟨5, 0⟩]).scaleRatio = 1 := by
    simp [run, step, mousePressEvent, setMode, emit, finishLine, init, lineItems,
      measureLineItems]
  obtain ⟨r, Q, t, h1, h2, h3, ht, hQ, _, hmin, _, hlabel, _⟩ :=
    distance_click_closest_point ⟨Real.sqrt, fun x => some (Real.arccos x), fun _ _ => 0, fun _ _ => true⟩
      (run ⟨Real.sqrt, fun x => some (Real.arccos x), fun _ _ => 0, fun _ _ => true⟩ init
        [.setMode .Line, .click ⟨0, 0⟩, .click ⟨10, 0⟩, .setMode .Distance, .click ⟨5, 0⟩])
      ⟨.measure 0, ⟨⟨0, 0⟩, ⟨10, 0⟩⟩⟩ ⟨0, 0⟩ ⟨10, 0⟩ ⟨20, 5⟩ rfl
      (by rw [hscale]; norm_num) rfl rfl rfl hne
  have ht2 : t = 2 := by rw [ht]; norm_num
  have hQ2 : Q = ⟨20, 0⟩ := by rw [hQ, ht2]; norm_num
  have h5 : dist ⟨Real.sqrt, fun x => some (Real.arccos x), fun _ _ => 0, fun _ _ => true⟩
      (⟨20, 5⟩ : QPointF ℝ) ⟨20, 0⟩ = 5 := by
    simp only [dist]
    rw [show ((20 : ℝ) - 20) ^ 2 + (5 - 0) ^ 2 = 5 ^ 2 by norm_num]
    exact Real.sqrt_sq (by norm_num)
  rw [hQ2] at h3 hmin hlabel
  rw [h5] at hmin
  refine ⟨hne, r, h1, h2, h3, ?_, hmin⟩
  rw [hlabel, h5, hscale]
  norm_num

/-- C10: the click that completes a tool (second click in Line mode, third click in Arc
mode, third click in Angle mode, the click in Distance mode while a line is selected)
leaves the mode None, the buffer empty and no line selected, and the last signal it emits
is `modeChanged (None)`. -/
theorem completion_click_resets (e : Extern K) (s : CanvasScene K) (pos : QPointF K)
    (h : (s.currentMode = .Line ∧ s.currentPoints.length = 1) ∨
         (s.currentMode = .Arc ∧ s.currentPoints.length = 2) ∨
         (s.currentMode = .Angle ∧ s.currentPoints.length = 2) ∨
         (s.currentMode = .Distance ∧ s.selectedLineForDist.isSome = true)) :
    (mousePressEvent e s pos).currentMode = .None ∧
    (mousePressEvent e s pos).currentPoints = [] ∧
    (mousePressEvent e s pos).selectedLineForDist = none ∧
    ∃ msgs : List Signal,
      (mousePressEvent e s pos).emitted = s.emitted ++ msgs ++ [.modeChanged .None] := by
  rcases h with ⟨hm, hb⟩ | ⟨hm, hb⟩ | ⟨hm, hb⟩ | ⟨hm, hsel⟩
  · obtain ⟨p0, hp⟩ := List.length_eq_one.mp hb
    refine ⟨?_, ?_, ?_, [.messageChanged "直线绘制完成。"], ?_⟩ <;>
      simp [mousePressEvent, hm, hp, finishLine, emit, setMode]
  · obtain ⟨p0, p1, hp⟩ := List.length_eq_two.mp hb
    by_cases hD : |detD p0 p1 pos| < collinearEps
    · refine ⟨?_, ?_, ?_, [.messageChanged "三点共线，无法绘制圆弧",
        .messageChanged "圆弧绘制完成。"], ?_⟩ <;>
        simp [mousePressEvent, hm, hp, finishArc, hD, emit, setMode]
    · refine ⟨?_, ?_, ?_, [.messageChanged "圆弧绘制完成。"], ?_⟩ <;>
        simp [mousePressEvent, hm, hp, finishArc, hD, emit, setMode]
  · obtain ⟨p0, p1, hp⟩ := List.length_eq_two.mp hb
    refine ⟨?_, ?_, ?_, [.messageChanged "角度测量完成。"], ?_⟩ <;>
      simp [mousePressEvent, hm, hp, finishAngle, emit, setMode]
  · obtain ⟨sel, hs⟩ := Option.isSome_iff_exists.mp hsel
    refine ⟨?_, ?_, ?_, [.messageChanged "距离测量完成。"], ?_⟩ <;>
      simp [mousePressEvent, hm, hs, finishDistance, emit, setMode]

/-- An instance of C10 on rationals: the second click of the Line tool. -/
theorem completion_click_resets_witness :
    (mousePressEvent ⟨id, some, fun _ _ => 0, fun _ _ => false⟩
      (run ⟨id, some, fun _ _ => 0, fun _ _ => false⟩ (init : CanvasScene ℚ)
        [.setMode .Line, .click ⟨0, 0⟩]) ⟨10, 0⟩).currentMode = .None ∧
    (mousePressEvent ⟨id, some, fun _ _ => 0, fun _ _ => false⟩
      (run ⟨id, some, fun _ _ => 0, fun _ _ => false⟩ (init : CanvasScene ℚ)
        [.setMode .Line, .click ⟨0, 0⟩]) ⟨10, 0⟩).currentPoints = [] :=
  have h := completion_click_resets ⟨id, some, fun _ _ => 0, fun _ _ => false⟩
    (run ⟨id, some, fun _ _ => 0, fun _ _ => false⟩ (init : CanvasScene ℚ)
      [.setMode .Line, .click ⟨0, 0⟩]) ⟨10, 0⟩ (Or.inl ⟨rfl, rfl⟩)
  ⟨h.1, h.2.1⟩

/-- C8, evaluated where it fails: the triple (0,0), (1,0), (0,0.000005) has `|D|` equal to
`1e-5`, so `finishArc` accepts it (it rejects only `|D| < 1e-5`), but `updateMeasurements`
recomputes an Arc label only when `|D| > 1e-5`: after `setScaleRatio (2)` the record still
shows the radius computed for the scale factor 1, not `distance (center, p1) / 2`. -/
theorem arc_on_threshold_stale_after_rescale :
    ∃ r : MeasureItem ℝ,
      (run ⟨Real.sqrt, fun x => some (Real.arccos x), fun _ _ => 0, fun _ _ => false⟩ init
        [.setMode .Arc, .click ⟨0, 0⟩, .click ⟨1, 0⟩, .click ⟨0, 1 / 200000⟩,
         .setScaleRatio 2]).measureItems = [r] ∧
      (run ⟨Real.sqrt, fun x => some (Real.arccos x), fun _ _ => 0, fun _ _ => false⟩ init
        [.setMode .Arc, .click ⟨0, 0⟩, .click ⟨1, 0⟩, .click ⟨0, 1 / 200000⟩,
         .setScaleRatio 2]).scaleRatio = 2 ∧
      r.type = 1 ∧ r.points = [⟨0, 0⟩, ⟨1, 0⟩, ⟨0, 1 / 200000⟩] ∧
      |detD (⟨0, 0⟩ : QPointF ℝ) ⟨1, 0⟩ ⟨0, 1 / 200000⟩| = collinearEps ∧
      r.textItem.text = .radius (Real.sqrt ((1 / 2 - 0) ^ 2 + (1 / 400000 - 0) ^ 2) / 1) ∧
      r.textItem.text ≠ .radius (Real.sqrt ((1 / 2 - 0) ^ 2 + (1 / 400000 - 0) ^ 2) / 2) := by
  have hD : detD (⟨0, 0⟩ : QPointF ℝ) ⟨1, 0⟩ ⟨0, 1 / 200000⟩ = 1 / 100000 := by
    norm_num [detD]
  have hcx : centerX (⟨0, 0⟩ : QPointF ℝ) ⟨1, 0⟩ ⟨0, 1 / 200000⟩ = 1 / 2 := by
    rw [centerX, hD]; norm_num
  have hcy : centerY (⟨0, 0⟩ : QPointF ℝ) ⟨1, 0⟩ ⟨0, 1 / 200000⟩ = 1 / 400000 := by
    rw [centerY, hD]; norm_num
  have habs : |detD (⟨0, 0⟩ : QPointF ℝ) ⟨1, 0⟩ ⟨0, 1 / 200000⟩| = collinearEps := by
    rw [hD, collinearEps, abs_of_pos (by norm_num)]
  have hpos : 0 < Real.sqrt (((1 : ℝ) / 2 - 0) ^ 2 + (1 / 400000 - 0) ^ 2) :=
    Real.sqrt_pos.mpr (by norm_num)
  refine ⟨⟨1, .path (createArcPathThroughMid
      ⟨Real.sqrt, fun x => some (Real.arccos x), fun _ _ => 0, fun _ _ => false⟩ ⟨0, 0⟩ ⟨1, 0⟩ ⟨0, 1 / 200000⟩),
      ⟨.radius (Real.sqrt ((1 / 2 - 0) ^ 2 + (1 / 400000 - 0) ^ 2) / 1), ⟨1 / 2, 1 / 400000⟩⟩,
      [⟨0, 0⟩, ⟨1, 0⟩, ⟨0, 1 / 200000⟩],
      [.ellipse (0 - 2) (0 - 2) 4 4, .ellipse (1 - 2) (0 - 2) 4 4,
       .ellipse (0 - 2) (1 / 200000 - 2) 4 4]⟩, ?_, ?_, rfl, rfl, habs, rfl, ?_⟩
  · simp only [run, List.foldl, step, setMode, init, mousePressEvent, emit, List.nil_append,
      List.cons_append, finishArc, habs, lt_irrefl, if_false, setScaleRatio, gt_iff_lt,
      updateMeasurements, List.map, updateItem, pt, List.getD_cons_zero, List.getD_cons_succ,
      toMm, dist, hcx, hcy]
    norm_num
  · simp [run, step, setScaleRatio, updateMeasurements]
  · intro h
    have h2 := Text.radius.inj h
    linarith

/-- A click keeps the scale factor, and either keeps the store or appends one record
whose label agrees with the scale factor. -/
theorem mousePressEvent_store (e : Extern K) (s : CanvasScene K) (pos : QPointF K) :
    (mousePressEvent e s pos).scaleRatio = s.scaleRatio ∧
    ((mousePressEvent e s pos).measureItems = s.measureItems ∨
     ∃ r, (mousePressEvent e s pos).measureItems = s.measureItems ++ [r] ∧
       LabelConsistent e s.scaleRatio r) := by
  cases hm : s.currentMode with
  | None => simp [mousePressEvent, hm]
  | Line =>
    rcases hp : s.currentPoints with _ | ⟨a, _ | ⟨b, l⟩⟩
    · simp [mousePressEvent, hm, hp, emit]
    · simp only [mousePressEvent, hm, hp, emit, setMode, finishLine, List.cons_append,
        List.nil_append]
      exact ⟨trivial, Or.inr ⟨_, rfl, by simp [LabelConsistent, pt, toMm]⟩⟩
    · simp [mousePressEvent, hm, hp]
  | Arc =>
    rcases hp : s.currentPoints with _ | ⟨a, _ | ⟨b, _ | ⟨c, l⟩⟩⟩
    · simp [mousePressEvent, hm, hp, emit]
    · simp [mousePressEvent, hm, hp, emit]
    · by_cases hD : |detD a b pos| < collinearEps
      · simp [mousePressEvent, hm, hp, emit, setMode, finishArc, hD]
      · simp only [mousePressEvent, hm, hp, emit, setMode, finishArc, hD, if_false,
          List.cons_append, List.nil_append]
        exact ⟨trivial, Or.inr ⟨_, rfl, by simp [LabelConsistent, pt, toMm]⟩⟩
    · simp [mousePressEvent, hm, hp]
  | Angle =>
    rcases hp : s.currentPoints with _ | ⟨a, _ | ⟨b, _ | ⟨c, l⟩⟩⟩
    · simp [mousePressEvent, hm, hp, emit]
    · simp [mousePressEvent, hm, hp, emit]
    · simp only [mousePressEvent, hm, hp, emit, setMode, finishAngle, List.cons_append,
        List.nil_append]
      exact ⟨trivial, Or.inr ⟨_, rfl, by simp [LabelConsistent]⟩⟩
    · simp [mousePressEvent, hm, hp]
  | Distance =>
    cases hsel : s.selectedLineForDist with
    | none =>
      simp only [mousePressEvent, hm, hsel]
      split <;> simp [emit]
    | some sel =>
      simp only [mousePressEvent, hm, hsel, emit, setMode, finishDistance]
      exact ⟨trivial, Or.inr ⟨_, rfl, by simp [LabelConsistent, pt, toMm]⟩⟩

/-- One call on the scene keeps all labels in agreement with the scale factor. -/
theorem step_labels_consistent (e : Extern K) (s : CanvasScene K) (ev : Event K)
    (h : ∀ r ∈ s.measureItems, LabelConsistent e s.scaleRatio r) :
    ∀ r ∈ (step e s ev).measureItems, LabelConsistent e (step e s ev).scaleRatio r := by
  cases ev with
  | setMode mode => exact h
  | click pos =>
    obtain ⟨hsc, hst⟩ := mousePressEvent_store e s pos
    simp only [step, hsc]
    rcases hst with heq | ⟨r0, heq, hr0⟩
    · rw [heq]; exact h
    · rw [heq]
      intro r hr
      rcases List.mem_append.mp hr with hr | hr
      · exact h r hr
      · rw [List.mem_singleton.mp hr]; exact hr0
  | move pos =>
    have hs : (updatePreview e s pos).measureItems = s.measureItems ∧
        (updatePreview e s pos).scaleRatio = s.scaleRatio := by
      unfold updatePreview
      split <;> exact ⟨rfl, rfl⟩
    simp only [step, mouseMoveEvent, hs.1, hs.2]
    exact h
  | setScaleRatio x =>
    by_cases hx : 0 < x
    · simp only [step, setScaleRatio, gt_iff_lt, if_pos hx, updateMeasurements]
      intro r hr
      obtain ⟨item, _, rfl⟩ := List.mem_map.mp hr
      exact updateItem_consistent e _ item
    · simp only [step, setScaleRatio, gt_iff_lt, if_neg hx]
      exact h
  | clear =>
    intro r hr
    simp [step, clearMeasurements, emit, setMode] at hr

/-- In every reachable state every Line record, every Distance record and every Arc record
with `|D| > 1e-5` shows the value computed for the current scale factor. -/
theorem reachable_labels_consistent (e : Extern K) (s : CanvasScene K) (h : Reachable e s) :
    ∀ r ∈ s.measureItems, LabelConsistent e s.scaleRatio r := by
  obtain ⟨events, rfl⟩ := h
  have key : ∀ (evs : List (Event K)) (s0 : CanvasScene K),
      (∀ r ∈ s0.measureItems, LabelConsistent e s0.scaleRatio r) →
      ∀ r ∈ (run e s0 evs).measureItems, LabelConsistent e (run e s0 evs).scaleRatio r := by
    intro evs
    induction evs with
    | nil => intro s0 h0; exact h0
    | cons ev rest ih =>
      intro s0 h0
      exact ih (step e s0 ev) (step_labels_consistent e s0 ev h0)
  exact key events init (by simp [init])

/-- C14: in Distance mode with no line selected, a click whose 10 by 10 selection rectangle
(5 pixels on each side) meets no line item keeps the mode Distance, the selection empty, the
buffer and the store as they were, and emits exactly one signal, a status message (no
`modeChanged`). -/
theorem distance_miss_stays_selecting (e : Extern K) (s : CanvasScene K) (pos : QPointF K)
    (hm : s.currentMode = .Distance) (hsel : s.selectedLineForDist = none)
    (hmiss : ∀ item ∈ lineItems s,
      e.intersects ⟨pos.x - 5, pos.y - 5, 10, 10⟩ item.line = false) :
    (mousePressEvent e s pos).currentMode = .Distance ∧
    (mousePressEvent e s pos).selectedLineForDist = none ∧
    (mousePressEvent e s pos).currentPoints = s.currentPoints ∧
    (mousePressEvent e s pos).measureItems = s.measureItems ∧
    (mousePressEvent e s pos).emitted
      = s.emitted ++ [.messageChanged "请点击一条已存在的直线。"] := by
  have hfind : (lineItems s).find?
      (fun item => e.intersects ⟨pos.x - 5, pos.y - 5, 10, 10⟩ item.line) = none := by
    rw [List.find?_eq_none]
    intro item hitem
    simp [hmiss item hitem]
  simp only [mousePressEvent, hm, hsel, hfind, emit]
  exact ⟨trivial, trivial, trivial, trivial, trivial⟩

/-- An instance of C14 on rationals: with a Line record (0,0)–(100,0) drawn, the Distance
click at (50,50) is 50 pixels from the line and selects nothing. -/
theorem distance_miss_stays_selecting_witness :
    (run ⟨id, some, fun _ _ => 0, bboxIntersects⟩ (init : CanvasScene ℚ)
      [.setMode .Line, .click ⟨0, 0⟩, .click ⟨100, 0⟩, .setMode .Distance,
       .click ⟨50, 50⟩]).currentMode = .Distance ∧
    (run ⟨id, some, fun _ _ => 0, bboxIntersects⟩ (init : CanvasScene ℚ)
      [.setMode .Line, .click ⟨0, 0⟩, .click ⟨100, 0⟩, .setMode .Distance,
       .click ⟨50, 50⟩]).selectedLineForDist = none ∧
    (run ⟨id, some, fun _ _ => 0, bboxIntersects⟩ (init : CanvasScene ℚ)
      [.setMode .Line, .click ⟨0, 0⟩, .click ⟨100, 0⟩, .setMode .Distance,
       .click ⟨50, 50⟩]).emitted
      = (run ⟨id, some, fun _ _ => 0, bboxIntersects⟩ (init : CanvasScene ℚ)
          [.setMode .Line, .click ⟨0, 0⟩, .click ⟨100, 0⟩, .setMode .Distance]).emitted
        ++ [.messageChanged "请点击一条已存在的直线。"] :=
  have h := distance_miss_stays_selecting ⟨id, some, fun _ _ => 0, bboxIntersects⟩
    (run ⟨id, some, fun _ _ => 0, bboxIntersects⟩ (init : CanvasScene ℚ)
      [.setMode .Line, .click ⟨0, 0⟩, .click ⟨100, 0⟩, .setMode .Distance])
    ⟨50, 50⟩ rfl rfl (by
      intro item hitem
      simp [run, step, setMode, mousePressEvent, emit, finishLine, init, lineItems,
        measureLineItems] at hitem
      subst hitem
      simp [bboxIntersects]
      norm_num)
  ⟨h.1, h.2.1, h.2.2.2.2⟩

/-- C13 fails for the Arc tool: with the points (0,0), (10,10) buffered, the third click
(20,20) makes a collinear triple, and after it the buffer is empty, not what it was. -/
theorem arc_collinear_click_discards_buffer :
    |detD (⟨0, 0⟩ : QPointF ℚ) ⟨10, 10⟩ ⟨20, 20⟩| < collinearEps ∧
    (run ⟨id, some, fun _ _ => 0, bboxIntersects⟩ (init : CanvasScene ℚ)
      [.setMode .Arc, .click ⟨0, 0⟩, .click ⟨10, 10⟩]).currentPoints
      = [⟨0, 0⟩, ⟨10, 10⟩] ∧
    (mousePressEvent ⟨id, some, fun _ _ => 0, bboxIntersects⟩
      (run ⟨id, some, fun _ _ => 0, bboxIntersects⟩ (init : CanvasScene ℚ)
        [.setMode .Arc, .click ⟨0, 0⟩, .click ⟨10, 10⟩]) ⟨20, 20⟩).currentPoints = [] ∧
    (mousePressEvent ⟨id, some, fun _ _ => 0, bboxIntersects⟩
      (run ⟨id, some, fun _ _ => 0, bboxIntersects⟩ (init : CanvasScene ℚ)
        [.setMode .Arc, .click ⟨0, 0⟩, .click ⟨10, 10⟩]) ⟨20, 20⟩).currentPoints
      ≠ (run ⟨id, some, fun _ _ => 0, bboxIntersects⟩ (init : CanvasScene ℚ)
        [.setMode .Arc, .click ⟨0, 0⟩, .click ⟨10, 10⟩]).currentPoints := by
  have hD : |detD (⟨0, 0⟩ : QPointF ℚ) ⟨10, 10⟩ ⟨20, 20⟩| < collinearEps := by
    norm_num [detD, collinearEps]
  have hafter : (mousePressEvent ⟨id, some, fun _ _ => 0, bboxIntersects⟩
      (run ⟨id, some, fun _ _ => 0, bboxIntersects⟩ (init : CanvasScene ℚ)
        [.setMode .Arc, .click ⟨0, 0⟩, .click ⟨10, 10⟩]) ⟨20, 20⟩).currentPoints = [] := by
    simp [run, step, setMode, mousePressEvent, emit, finishArc, init, hD]
  refine ⟨hD, rfl, hafter, ?_⟩
  rw [hafter]
  simp [run, step, setMode, mousePressEvent, emit, init]

/-- C13 as amended: a failing click never changes the store. After the third Arc click on a
triple with `|D| < 1e-5` the buffer is emptied (the two buffered points are discarded);
after a first Distance click that hits no line the buffer is what it was. -/
theorem failing_click_keeps_store (e : Extern K) (s : CanvasScene K) (pos : QPointF K) :
    (∀ p1 p2 : QPointF K, s.currentMode = .Arc → s.currentPoints = [p1, p2] →
      |detD p1 p2 pos| < collinearEps →
      (mousePressEvent e s pos).measureItems = s.measureItems ∧
      (mousePressEvent e s pos).currentPoints = []) ∧
    (s.currentMode = .Distance → s.selectedLineForDist = none →
      (∀ item ∈ lineItems s,
        e.intersects ⟨pos.x - 5, pos.y - 5, 10, 10⟩ item.line = false) →
      (mousePressEvent e s pos).measureItems = s.measureItems ∧
      (mousePressEvent e s pos).currentPoints = s.currentPoints) := by
  constructor
  · intro p1 p2 hm hb hD
    simp [mousePressEvent, hm, hb, finishArc, hD, emit, setMode]
  · intro hm hsel hmiss
    have hfind : (lineItems s).find?
        (fun item => e.intersects ⟨pos.x - 5, pos.y - 5, 10, 10⟩ item.line) = none := by
      rw [List.find?_eq_none]
      intro item hitem
      simp [hmiss item hitem]
    simp only [mousePressEvent, hm, hsel, hfind, emit]
    exact ⟨trivial, trivial⟩

/-- An instance of amended C13 on rationals: the collinear third Arc click (20,20) after
(0,0), (10,10), and the Distance click (50,50) on an empty scene. -/
theorem failing_click_keeps_store_witness :
    ((mousePressEvent ⟨id, some, fun _ _ => 0, bboxIntersects⟩
      (run ⟨id, some, fun _ _ => 0, bboxIntersects⟩ (init : CanvasScene ℚ)
        [.setMode .Arc, .click ⟨0, 0⟩, .click ⟨10, 10⟩]) ⟨20, 20⟩).measureItems = [] ∧
     (mousePressEvent ⟨id, some, fun _ _ => 0, bboxIntersects⟩
      (run ⟨id, some, fun _ _ => 0, bboxIntersects⟩ (init : CanvasScene ℚ)
        [.setMode .Arc, .click ⟨0, 0⟩, .click ⟨10, 10⟩]) ⟨20, 20⟩).currentPoints = []) ∧
    ((mousePressEvent ⟨id, some, fun _ _ => 0, bboxIntersects⟩
      (run ⟨id, some, fun _ _ => 0, bboxIntersects⟩ (init : CanvasScene ℚ)
        [.setMode .Distance]) ⟨50, 50⟩).measureItems = [] ∧
     (mousePressEvent ⟨id, some, fun _ _ => 0, bboxIntersects⟩
      (run ⟨id, some, fun _ _ => 0, bboxIntersects⟩ (init : CanvasScene ℚ)
        [.setMode .Distance]) ⟨50, 50⟩).currentPoints = []) :=
  ⟨(failing_click_keeps_store ⟨id, some, fun _ _ => 0, bboxIntersects⟩
      (run ⟨id, some, fun _ _ => 0, bboxIntersects⟩ (init : CanvasScene ℚ)
        [.setMode .Arc, .click ⟨0, 0⟩, .click ⟨10, 10⟩]) ⟨20, 20⟩).1 ⟨0, 0⟩ ⟨10, 10⟩ rfl rfl
      (by norm_num [detD, collinearEps]),
   (failing_click_keeps_store ⟨id, some, fun _ _ => 0, bboxIntersects⟩
      (run ⟨id, some, fun _ _ => 0, bboxIntersects⟩ (init : CanvasScene ℚ)
        [.setMode .Distance]) ⟨50, 50⟩).2 rfl rfl
      (by intro item hitem; simp [run, step, setMode, init, lineItems, measureLineItems] at hitem)⟩

/-- C19, evaluated where it fails: Arc tool, clicks (0,0), (10,10), (20,20). The third click
appends no record, yet after the collinearity notice it emits the completion message
"圆弧绘制完成。": the notice is not the last status message of the click. -/
theorem arc_collinear_click_emits_completion :
    |detD (⟨0, 0⟩ : QPointF ℚ) ⟨10, 10⟩ ⟨20, 20⟩| < collinearEps ∧
    (mousePressEvent ⟨id, some, fun _ _ => 0, bboxIntersects⟩
      (run ⟨id, some, fun _ _ => 0, bboxIntersects⟩ (init : CanvasScene ℚ)
        [.setMode .Arc, .click ⟨0, 0⟩, .click ⟨10, 10⟩]) ⟨20, 20⟩).measureItems
      = (run ⟨id, some, fun _ _ => 0, bboxIntersects⟩ (init : CanvasScene ℚ)
        [.setMode .Arc, .click ⟨0, 0⟩, .click ⟨10, 10⟩]).measureItems ∧
    (mousePressEvent ⟨id, some, fun _ _ => 0, bboxIntersects⟩
      (run ⟨id, some, fun _ _ => 0, bboxIntersects⟩ (init : CanvasScene ℚ)
        [.setMode .Arc, .click ⟨0, 0⟩, .click ⟨10, 10⟩]) ⟨20, 20⟩).emitted
      = (run ⟨id, some, fun _ _ => 0, bboxIntersects⟩ (init : CanvasScene ℚ)
          [.setMode .Arc, .click ⟨0, 0⟩, .click ⟨10, 10⟩]).emitted
        ++ [.messageChanged "三点共线，无法绘制圆弧", .messageChanged "圆弧绘制完成。",
            .modeChanged .None] := by
  have hD : |detD (⟨0, 0⟩ : QPointF ℚ) ⟨10, 10⟩ ⟨20, 20⟩| < collinearEps := by
    norm_num [detD, collinearEps]
  refine ⟨hD, ?_, ?_⟩ <;>
    simp [run, step, setMode, mousePressEvent, emit, finishArc, init, hD]

/-- In Angle mode with the clicks `p1`, `p2` buffered, the third click `p3` appends a record
of type 3 anchored at `[p1, p2, p3]`, labelled next to the second clicked point `p2`. When
the two vectors `p1 - p2` and `p3 - p2` have non-zero computed lengths and `acos` returns a
number, the label shows `acos (dot / (|v1| |v2|)) * 180 / PI`. -/
theorem angle_click_label (e : Extern K) (s : CanvasScene K) (p1 p2 p3 : QPointF K) (a : K)
    (hm : s.currentMode = .Angle) (hb : s.currentPoints = [p1, p2])
    (hmag : e.sqrt ((p1.x - p2.x) * (p1.x - p2.x) + (p1.y - p2.y) * (p1.y - p2.y))
      * e.sqrt ((p3.x - p2.x) * (p3.x - p2.x) + (p3.y - p2.y) * (p3.y - p2.y)) ≠ 0)
    (hacos : e.acos (((p1.x - p2.x) * (p3.x - p2.x) + (p1.y - p2.y) * (p3.y - p2.y))
      / (e.sqrt ((p1.x - p2.x) * (p1.x - p2.x) + (p1.y - p2.y) * (p1.y - p2.y))
        * e.sqrt ((p3.x - p2.x) * (p3.x - p2.x) + (p3.y - p2.y) * (p3.y - p2.y)))) = some a) :
    ∃ r : MeasureItem K,
      (mousePressEvent e s p3).measureItems = s.measureItems ++ [r] ∧
      r.type = 3 ∧ r.points = [p1, p2, p3] ∧
      r.textItem = ⟨.degrees (a * 180 / PI), ⟨p2.x + 10, p2.y + 10⟩⟩ := by
  refine ⟨⟨3, .path [.moveTo p2, .lineTo p1, .moveTo p2, .lineTo p3],
    ⟨.degrees (a * 180 / PI), ⟨p2.x + 10, p2.y + 10⟩⟩, [p1, p2, p3], []⟩, ?_, rfl, rfl, rfl⟩
  simp only [mousePressEvent, hm, hb, emit, setMode, finishAngle, List.cons_append,
    List.nil_append, if_neg hmag, hacos, Option.map_some']

/-- C12, evaluated where it fails: the clicks (1,5), (0,0), (-1,-5) make a straight angle at
the second clicked point. Both vectors have the squared length 26, and `std::sqrt (26.0)`
is the double 2870492797671419 / 2^49, whose square is below 26; the rounding of `sqrt`
alone puts the quotient `dot / (mag1 * mag2)` below -1, where `acos` returns NaN. For every
library with this value of `sqrt (26)` and this behaviour of `acos`, the record appended by
the third click is labelled `nan°`: it does not show the angle between the two vectors. -/
theorem angle_straight_records_nan (e : Extern ℚ) (s : CanvasScene ℚ)
    (hsqrt : e.sqrt 26 = 2870492797671419 / 562949953421312)
    (hacos : ∀ x : ℚ, x < -1 → e.acos x = none)
    (hm : s.currentMode = .Angle) (hb : s.currentPoints = [⟨1, 5⟩, ⟨0, 0⟩]) :
    e.sqrt 26 * e.sqrt 26 < 26 ∧
    ((1 - 0) * (-1 - 0) + (5 - 0) * (-5 - 0) : ℚ) / (e.sqrt 26 * e.sqrt 26) < -1 ∧
    ∃ r : MeasureItem ℚ,
      (mousePressEvent e s ⟨-1, -5⟩).measureItems = s.measureItems ++ [r] ∧
      r.type = 3 ∧ r.points = [⟨1, 5⟩, ⟨0, 0⟩, ⟨-1, -5⟩] ∧
      r.textItem.text = .nanDegrees := by
  have h1 : ((1 : ℚ) - 0) * (1 - 0) + (5 - 0) * (5 - 0) = 26 := by norm_num
  have h2 : ((-1 : ℚ) - 0) * (-1 - 0) + (-5 - 0) * (-5 - 0) = 26 := by norm_num
  have hq : ((1 - 0) * (-1 - 0) + (5 - 0) * (-5 - 0) : ℚ) / (e.sqrt 26 * e.sqrt 26) < -1 := by
    rw [hsqrt]; norm_num
  have hne : e.sqrt 26 * e.sqrt 26 ≠ 0 := by
    rw [hsqrt]; norm_num
  refine ⟨by rw [hsqrt]; norm_num, hq, ⟨3, .path [.moveTo ⟨0, 0⟩, .lineTo ⟨1, 5⟩,
      .moveTo ⟨0, 0⟩, .lineTo ⟨-1, -5⟩], ⟨.nanDegrees, ⟨0 + 10, 0 + 10⟩⟩,
    [⟨1, 5⟩, ⟨0, 0⟩, ⟨-1, -5⟩], []⟩, ?_, rfl, rfl, rfl⟩
  simp only [mousePressEvent, hm, hb, emit, setMode, finishAngle, List.cons_append,
    List.nil_append, h1, h2, if_neg hne, hacos _ hq, Option.map_none']

/-- An instance of the evaluation of C12: a library on rationals whose `sqrt` returns the
double value of `sqrt (26)` and whose `acos` is NaN outside [-1, 1], and the state reached
by the clicks (1,5), (0,0) of the Angle tool. -/
theorem angle_straight_records_nan_witness :
    ∃ r : MeasureItem ℚ,
      (mousePressEvent
        ⟨fun _ => 2870492797671419 / 562949953421312,
          fun x => if x < -1 ∨ 1 < x then none else some 0, fun _ _ => 0, bboxIntersects⟩
        (run ⟨fun _ => 2870492797671419 / 562949953421312,
          fun x => if x < -1 ∨ 1 < x then none else some 0, fun _ _ => 0, bboxIntersects⟩
          (init : CanvasScene ℚ) [.setMode .Angle, .click ⟨1, 5⟩, .click ⟨0, 0⟩])
        ⟨-1, -5⟩).measureItems = [] ++ [r] ∧
      r.type = 3 ∧ r.points = [⟨1, 5⟩, ⟨0, 0⟩, ⟨-1, -5⟩] ∧
      r.textItem.text = .nanDegrees :=
  (angle_straight_records_nan
    ⟨fun _ => 2870492797671419 / 562949953421312,
      fun x => if x < -1 ∨ 1 < x then none else some 0, fun _ _ => 0, bboxIntersects⟩
    (run ⟨fun _ => 2870492797671419 / 562949953421312,
      fun x => if x < -1 ∨ 1 < x then none else some 0, fun _ _ => 0, bboxIntersects⟩
      (init : CanvasScene ℚ) [.setMode .Angle, .click ⟨1, 5⟩, .click ⟨0, 0⟩])
    rfl (fun x hx => by simp [hx]) rfl rfl).2.2

/-- With the real square root and arc cosine, for two non-zero perpendicular vectors the
label of the Angle record shows `π / 2 * 180 / PI`, where `PI` is the decimal fraction of
the header: a number within 1e-18 of 90, which the label prints with one decimal. -/
theorem angle_perpendicular_real (e : Extern ℝ) (s : CanvasScene ℝ) (p1 p2 p3 : QPointF ℝ)
    (hsqrt : e.sqrt = Real.sqrt)
    (hacos : ∀ x : ℝ, -1 ≤ x → x ≤ 1 → e.acos x = some (Real.arccos x))
    (hm : s.currentMode = .Angle) (hb : s.currentPoints = [p1, p2])
    (h1 : p1 ≠ p2) (h3 : p3 ≠ p2)
    (hdot : (p1.x - p2.x) * (p3.x - p2.x) + (p1.y - p2.y) * (p3.y - p2.y) = 0) :
    ∃ (r : MeasureItem ℝ) (v : ℝ),
      (mousePressEvent e s p3).measureItems = s.measureItems ++ [r] ∧
      r.type = 3 ∧ r.points = [p1, p2, p3] ∧
      r.textItem.text = .degrees v ∧ v = Real.pi / 2 * 180 / PI ∧
      |v - 90| < 1 / 1000000000000000000 := by
  have hpi : (0 : ℝ) < PI := PI_pos
  have hlo := Real.pi_gt_d20
  have hhi := Real.pi_lt_d20
  have hm1 : 0 < (p1.x - p2.x) * (p1.x - p2.x) + (p1.y - p2.y) * (p1.y - p2.y) :=
    lt_of_le_of_ne (add_nonneg (mul_self_nonneg _) (mul_self_nonneg _))
      (Ne.symm (line_sq_length_ne_zero ⟨p2, p1⟩ (Ne.symm h1)))
  have hm3 : 0 < (p3.x - p2.x) * (p3.x - p2.x) + (p3.y - p2.y) * (p3.y - p2.y) :=
    lt_of_le_of_ne (add_nonneg (mul_self_nonneg _) (mul_self_nonneg _))
      (Ne.symm (line_sq_length_ne_zero ⟨p2, p3⟩ (Ne.symm h3)))
  have hmag : e.sqrt ((p1.x - p2.x) * (p1.x - p2.x) + (p1.y - p2.y) * (p1.y - p2.y))
      * e.sqrt ((p3.x - p2.x) * (p3.x - p2.x) + (p3.y - p2.y) * (p3.y - p2.y)) ≠ 0 := by
    rw [hsqrt]
    exact mul_ne_zero (ne_of_gt (Real.sqrt_pos.mpr hm1)) (ne_of_gt (Real.sqrt_pos.mpr hm3))
  have hq : e.acos (((p1.x - p2.x) * (p3.x - p2.x) + (p1.y - p2.y) * (p3.y - p2.y))
      / (e.sqrt ((p1.x - p2.x) * (p1.x - p2.x) + (p1.y - p2.y) * (p1.y - p2.y))
        * e.sqrt ((p3.x - p2.x) * (p3.x - p2.x) + (p3.y - p2.y) * (p3.y - p2.y))))
      = some (Real.pi / 2) := by
    rw [hdot, zero_div, hacos 0 (by norm_num) (by norm_num), Real.arccos_zero]
  obtain ⟨r, hr1, hr2, hr3, hr4⟩ := angle_click_label e s p1 p2 p3 (Real.pi / 2) hm hb hmag hq
  refine ⟨r, _, hr1, hr2, hr3, by rw [hr4], rfl, ?_⟩
  rw [abs_lt]
  constructor
  · rw [lt_sub_iff_add_lt, lt_div_iff₀ hpi]
    norm_num [PI] at hlo hhi ⊢
    linarith
  · rw [sub_lt_iff_lt_add, div_lt_iff₀ hpi]
    norm_num [PI] at hlo hhi ⊢
    linarith

/-- A click keeps the store or appends one record; an appended record of type 0 has two
anchor points, the end points of its line item. -/
theorem mousePressEvent_line_shape (e : Extern K) (s : CanvasScene K) (pos : QPointF K) :
    (mousePressEvent e s pos).measureItems = s.measureItems ∨
    ∃ r, (mousePressEvent e s pos).measureItems = s.measureItems ++ [r] ∧
      (r.type = 0 → ∃ p1 p2, r.points = [p1, p2] ∧ r.graphicsItem = .line ⟨p1, p2⟩) := by
  cases hm : s.currentMode with
  | None => simp [mousePressEvent, hm]
  | Line =>
    rcases hp : s.currentPoints with _ | ⟨a, _ | ⟨b, l⟩⟩
    · simp [mousePressEvent, hm, hp, emit]
    · simp only [mousePressEvent, hm, hp, emit, setMode, finishLine, List.cons_append,
        List.nil_append]
      exact Or.inr ⟨_, rfl, fun _ => ⟨a, pos, rfl, rfl⟩⟩
    · simp [mousePressEvent, hm, hp]
  | Arc =>
    rcases hp : s.currentPoints with _ | ⟨a, _ | ⟨b, _ | ⟨c, l⟩⟩⟩
    · simp [mousePressEvent, hm, hp, emit]
    · simp [mousePressEvent, hm, hp, emit]
    · by_cases hD : |detD a b pos| < collinearEps
      · simp [mousePressEvent, hm, hp, emit, setMode, finishArc, hD]
      · simp only [mousePressEvent, hm, hp, emit, setMode, finishArc, hD, if_false,
          List.cons_append, List.nil_append]
        exact Or.inr ⟨_, rfl, fun h => by simp at h⟩
    · simp [mousePressEvent, hm, hp]
  | Angle =>
    rcases hp : s.currentPoints with _ | ⟨a, _ | ⟨b, _ | ⟨c, l⟩⟩⟩
    · simp [mousePressEvent, hm, hp, emit]
    · simp [mousePressEvent, hm, hp, emit]
    · simp only [mousePressEvent, hm, hp, emit, setMode, finishAngle, List.cons_append,
        List.nil_append]
      exact Or.inr ⟨_, rfl, fun h => by simp at h⟩
    · simp [mousePressEvent, hm, hp]
  | Distance =>
    cases hsel : s.selectedLineForDist with
    | none =>
      simp only [mousePressEvent, hm, hsel]
      split <;> simp [emit]
    | some sel =>
      simp only [mousePressEvent, hm, hsel, emit, setMode, finishDistance]
      exact Or.inr ⟨_, rfl, fun h => by simp at h⟩

/-- One call on the scene keeps the shape of the Line records. -/
theorem step_line_shape (e : Extern K) (s : CanvasScene K) (ev : Event K)
    (h : ∀ r ∈ s.measureItems, r.type = 0 →
      ∃ p1 p2, r.points = [p1, p2] ∧ r.graphicsItem = .line ⟨p1, p2⟩) :
    ∀ r ∈ (step e s ev).measureItems, r.type = 0 →
      ∃ p1 p2, r.points = [p1, p2] ∧ r.graphicsItem = .line ⟨p1, p2⟩ := by
  cases ev with
  | setMode mode => exact h
  | click pos =>
    simp only [step]
    rcases mousePressEvent_line_shape e s pos with heq | ⟨r0, heq, hr0⟩
    · rw [heq]; exact h
    · rw [heq]
      intro r hr
      rcases List.mem_append.mp hr with hr | hr
      · exact h r hr
      · rw [List.mem_singleton.mp hr]; exact hr0
  | move pos =>
    have hs : (updatePreview e s pos).measureItems = s.measureItems := by
      unfold updatePreview
      split <;> rfl
    simp only [step, mouseMoveEvent, hs]
    exact h
  | setScaleRatio x =>
    by_cases hx : 0 < x
    · simp only [step, setScaleRatio, gt_iff_lt, if_pos hx, updateMeasurements]
      intro r hr ht
      obtain ⟨item, hitem, rfl⟩ := List.mem_map.mp hr
      obtain ⟨h1, h2, h3⟩ := updateItem_fields e { s with scaleRatio := x } item
      rw [h1] at ht
      rw [h2, h3]
      exact h item hitem ht
    · simp only [step, setScaleRatio, gt_iff_lt, if_neg hx]
      exact h
  | clear =>
    intro r hr
    simp [step, clearMeasurements, emit, setMode] at hr

/-- C15 fails: the Line tool accepts a second click on the first point. After the clicks
(5,5), (5,5) the store holds a Line record with two equal anchor points, and the divisor
of the projection onto its line is zero. -/
theorem line_record_equal_points :
    ∃ r : MeasureItem ℚ,
      (run ⟨id, some, fun _ _ => 0, bboxIntersects⟩ (init : CanvasScene ℚ)
        [.setMode .Line, .click ⟨5, 5⟩, .click ⟨5, 5⟩]).measureItems = [r] ∧
      r.type = 0 ∧ r.points = [⟨5, 5⟩, ⟨5, 5⟩] ∧ pt r.points 0 = pt r.points 1 ∧
      r.graphicsItem = .line ⟨⟨5, 5⟩, ⟨5, 5⟩⟩ ∧
      ((pt r.points 1).x - (pt r.points 0).x) * ((pt r.points 1).x - (pt r.points 0).x)
        + ((pt r.points 1).y - (pt r.points 0).y) * ((pt r.points 1).y - (pt r.points 0).y)
        = 0 := by
  refine ⟨⟨0, .line ⟨⟨5, 5⟩, ⟨5, 5⟩⟩, ⟨.mm (((5 - 5) ^ 2 + (5 - 5) ^ 2) / 1),
    ⟨(5 + 5) / 2, (5 + 5) / 2⟩⟩, [⟨5, 5⟩, ⟨5, 5⟩], []⟩, ?_, rfl, rfl, rfl, rfl, ?_⟩
  · simp [run, step, setMode, mousePressEvent, emit, finishLine, init, toMm, dist]
  · simp [pt]

/-- C15 as amended: in every reachable state every Line record (type 0) has exactly two
anchor points `p1`, `p2`, which are the end points of its line item; the divisor
`|p2 - p1|²` of the projection onto that line is non-zero exactly when `p1 ≠ p2`. -/
theorem line_record_two_anchor_points (e : Extern K) (s : CanvasScene K)
    (h : Reachable e s) :
    ∀ r ∈ s.measureItems, r.type = 0 →
      ∃ p1 p2 : QPointF K, r.points = [p1, p2] ∧ r.graphicsItem = .line ⟨p1, p2⟩ ∧
        (p1 ≠ p2 ↔
          (p2.x - p1.x) * (p2.x - p1.x) + (p2.y - p1.y) * (p2.y - p1.y) ≠ 0) := by
  obtain ⟨events, rfl⟩ := h
  have key : ∀ (evs : List (Event K)) (s0 : CanvasScene K),
      (∀ r ∈ s0.measureItems, r.type = 0 →
        ∃ p1 p2, r.points = [p1, p2] ∧ r.graphicsItem = .line ⟨p1, p2⟩) →
      ∀ r ∈ (run e s0 evs).measureItems, r.type = 0 →
        ∃ p1 p2, r.points = [p1, p2] ∧ r.graphicsItem = .line ⟨p1, p2⟩ := by
    intro evs
    induction evs with
    | nil => intro s0 h0; exact h0
    | cons ev rest ih =>
      intro s0 h0
      exact ih (step e s0 ev) (step_line_shape e s0 ev h0)
  intro r hr ht
  obtain ⟨p1, p2, hp, hg⟩ := key events init (by simp [init]) r hr ht
  refine ⟨p1, p2, hp, hg, ?_, ?_⟩
  · intro hne
    exact line_sq_length_ne_zero ⟨p1, p2⟩ hne
  · intro hd heq
    apply hd
    rw [heq]
    ring

/-- An instance of amended C15 on rationals: the Line record of the clicks (0,0), (10,0)
in the state these clicks reach. -/
theorem line_record_two_anchor_points_witness :
    Reachable ⟨id, some, fun _ _ => 0, bboxIntersects⟩
      (run ⟨id, some, fun _ _ => 0, bboxIntersects⟩ (init : CanvasScene ℚ)
        [.setMode .Line, .click ⟨0, 0⟩, .click ⟨10, 0⟩]) ∧
    ∃ r ∈ (run ⟨id, some, fun _ _ => 0, bboxIntersects⟩ (init : CanvasScene ℚ)
        [.setMode .Line, .click ⟨0, 0⟩, .click ⟨10, 0⟩]).measureItems,
      r.type = 0 ∧
      ∃ p1 p2 : QPointF ℚ, r.points = [p1, p2] ∧ r.graphicsItem = .line ⟨p1, p2⟩ ∧
        (p1 ≠ p2 ↔
          (p2.x - p1.x) * (p2.x - p1.x) + (p2.y - p1.y) * (p2.y - p1.y) ≠ 0) := by
  have hreach : Reachable ⟨id, some, fun _ _ => 0, bboxIntersects⟩
      (run ⟨id, some, fun _ _ => 0, bboxIntersects⟩ (init : CanvasScene ℚ)
        [.setMode .Line, .click ⟨0, 0⟩, .click ⟨10, 0⟩]) :=
    ⟨[.setMode .Line, .click ⟨0, 0⟩, .click ⟨10, 0⟩], rfl⟩
  have hmem : (⟨0, .line ⟨⟨0, 0⟩, ⟨10, 0⟩⟩, ⟨.mm (((0 - 10) ^ 2 + (0 - 0) ^ 2) / 1),
      ⟨(0 + 10) / 2, (0 + 0) / 2⟩⟩, [⟨0, 0⟩, ⟨10, 0⟩], []⟩ : MeasureItem ℚ)
      ∈ (run ⟨id, some, fun _ _ => 0, bboxIntersects⟩ (init : CanvasScene ℚ)
        [.setMode .Line, .click ⟨0, 0⟩, .click ⟨10, 0⟩]).measureItems := by
    simp [run, step, setMode, mousePressEvent, emit, finishLine, init, toMm, dist]
  exact ⟨hreach, _, hmem, rfl,
    line_record_two_anchor_points ⟨id, some, fun _ _ => 0, bboxIntersects⟩ _ hreach _ hmem rfl⟩

/-- A click keeps the bound on the pending-click buffer. -/
theorem mousePressEvent_bufferBound (e : Extern K) (s : CanvasScene K) (pos : QPointF K)
    (h : BufferBound s) : BufferBound (mousePressEvent e s pos) := by
  cases hm : s.currentMode with
  | None =>
    simp only [mousePressEvent, hm]
    exact h
  | Line =>
    rcases hp : s.currentPoints with _ | ⟨a, _ | ⟨b, l⟩⟩
    · simp [BufferBound, mousePressEvent, hm, hp, emit]
    · simp [BufferBound, mousePressEvent, hm, hp, emit, setMode, finishLine]
    · simp [BufferBound, hm, hp] at h
  | Arc =>
    rcases hp : s.currentPoints with _ | ⟨a, _ | ⟨b, _ | ⟨c, l⟩⟩⟩
    · simp [BufferBound, mousePressEvent, hm, hp, emit]
    · simp [BufferBound, mousePressEvent, hm, hp, emit]
    · by_cases hD : |detD a b pos| < collinearEps
      · simp [BufferBound, mousePressEvent, hm, hp, emit, setMode, finishArc, hD]
      · simp [BufferBound, mousePressEvent, hm, hp, emit, setMode, finishArc, hD]
    · simp [BufferBound, hm, hp] at h
  | Angle =>
    rcases hp : s.currentPoints with _ | ⟨a, _ | ⟨b, _ | ⟨c, l⟩⟩⟩
    · simp [BufferBound, mousePressEvent, hm, hp, emit]
    · simp [BufferBound, mousePressEvent, hm, hp, emit]
    · simp [BufferBound, mousePressEvent, hm, hp, emit, setMode, finishAngle]
    · simp [BufferBound, hm, hp] at h
  | Distance =>
    have hb : s.currentPoints = [] := by
      simpa [BufferBound, hm] using h
    cases hsel : s.selectedLineForDist with
    | none =>
      simp only [mousePressEvent, hm, hsel]
      split <;> simp [BufferBound, emit, hm, hb]
    | some sel =>
      simp [BufferBound, mousePressEvent, hm, hsel, emit, setMode, finishDistance]

/-- One call on the scene keeps the bound on the pending-click buffer. -/
theorem step_bufferBound (e : Extern K) (s : CanvasScene K) (ev : Event K)
    (h : BufferBound s) : BufferBound (step e s ev) := by
  cases ev with
  | setMode mode => cases mode <;> simp [BufferBound, step, setMode]
  | click pos => exact mousePressEvent_bufferBound e s pos h
  | move pos =>
    have hs : (updatePreview e s pos).currentMode = s.currentMode ∧
        (updatePreview e s pos).currentPoints = s.currentPoints := by
      unfold updatePreview
      split <;> exact ⟨rfl, rfl⟩
    simp only [step, mouseMoveEvent, BufferBound, hs.1, hs.2]
    exact h
  | setScaleRatio x =>
    by_cases hx : 0 < x
    · simp only [step, setScaleRatio, gt_iff_lt, if_pos hx, updateMeasurements, BufferBound]
      exact h
    · simp only [step, setScaleRatio, gt_iff_lt, if_neg hx]
      exact h
  | clear => simp [BufferBound, step, clearMeasurements, emit, setMode]

/-- C17: in every state reachable from the initial scene by `setMode`, clicks, pointer
moves, scale changes and clears, the pending-click buffer holds at most 1 point in Line
mode, at most 2 in Arc and in Angle mode, and none in None and in Distance mode; and the
buffer is empty right after every `setMode`. -/
theorem reachable_buffer_bound (e : Extern K) (s : CanvasScene K) (h : Reachable e s) :
    (s.currentMode = .Line → s.currentPoints.length ≤ 1) ∧
    (s.currentMode = .Arc → s.currentPoints.length ≤ 2) ∧
    (s.currentMode = .Angle → s.currentPoints.length ≤ 2) ∧
    (s.currentMode = .None → s.currentPoints = []) ∧
    (s.currentMode = .Distance → s.currentPoints = []) ∧
    ∀ mode : ToolMode, (step e s (.setMode mode)).currentPoints = [] ∧
      (step e s (.setMode mode)).currentMode = mode := by
  obtain ⟨events, rfl⟩ := h
  have key : ∀ (evs : List (Event K)) (s0 : CanvasScene K),
      BufferBound s0 → BufferBound (run e s0 evs) := by
    intro evs
    induction evs with
    | nil => intro s0 h0; exact h0
    | cons ev rest ih =>
      intro s0 h0
      exact ih (step e s0 ev) (step_bufferBound e s0 ev h0)
  have hb : BufferBound (run e init events) := key events init (by simp [BufferBound, init])
  refine ⟨?_, ?_, ?_, ?_, ?_, fun mode => ⟨rfl, rfl⟩⟩ <;> intro hm <;>
    simpa [BufferBound, hm] using hb

/-- An instance of C17 on rationals: after `setMode (Arc)` and two clicks the buffer holds
two points, and a `setMode` empties it. -/
theorem reachable_buffer_bound_witness :
    Reachable ⟨id, some, fun _ _ => 0, bboxIntersects⟩
      (run ⟨id, some, fun _ _ => 0, bboxIntersects⟩ (init : CanvasScene ℚ)
        [.setMode .Arc, .click ⟨0, 0⟩, .click ⟨10, 10⟩]) ∧
    (run ⟨id, some, fun _ _ => 0, bboxIntersects⟩ (init : CanvasScene ℚ)
        [.setMode .Arc, .click ⟨0, 0⟩, .click ⟨10, 10⟩]).currentPoints.length ≤ 2 ∧
    (step ⟨id, some, fun _ _ => 0, bboxIntersects⟩
      (run ⟨id, some, fun _ _ => 0, bboxIntersects⟩ (init : CanvasScene ℚ)
        [.setMode .Arc, .click ⟨0, 0⟩, .click ⟨10, 10⟩]) (.setMode .Line)).currentPoints = [] :=
  have hreach : Reachable ⟨id, some, fun _ _ => 0, bboxIntersects⟩
      (run ⟨id, some, fun _ _ => 0, bboxIntersects⟩ (init : CanvasScene ℚ)
        [.setMode .Arc, .click ⟨0, 0⟩, .click ⟨10, 10⟩]) :=
    ⟨[.setMode .Arc, .click ⟨0, 0⟩, .click ⟨10, 10⟩], rfl⟩
  have h := reachable_buffer_bound ⟨id, some, fun _ _ => 0, bboxIntersects⟩ _ hreach
  ⟨hreach, h.2.1 rfl, (h.2.2.2.2.2 .Line).1⟩

/-- C18, evaluated where it fails: a Line record (0,0)–(100,0) is drawn, selected and
measured from (50,50), which adds the Distance record with the connector line
(50,50)–(50,0). In Distance mode again, the click (50,30) is on the connector and 30 pixels
from the Line record: the hit test takes the first `QGraphicsLineItem` it finds, so the
selected line is the main item of record 1, a Distance record (type 2), not a Line record. -/
theorem distance_click_selects_connector :
    (run ⟨id, some, fun _ _ => 0, bboxIntersects⟩ (init : CanvasScene ℚ)
      [.setMode .Line, .click ⟨0, 0⟩, .click ⟨100, 0⟩, .setMode .Distance, .click ⟨50, 0⟩,
       .click ⟨50, 50⟩, .setMode .Distance, .click ⟨50, 30⟩]).currentMode = .Distance ∧
    (run ⟨id, some, fun _ _ => 0, bboxIntersects⟩ (init : CanvasScene ℚ)
      [.setMode .Line, .click ⟨0, 0⟩, .click ⟨100, 0⟩, .setMode .Distance, .click ⟨50, 0⟩,
       .click ⟨50, 50⟩, .setMode .Distance, .click ⟨50, 30⟩]).selectedLineForDist
      = some ⟨.measure 1, ⟨⟨50, 50⟩, ⟨50, 0⟩⟩⟩ ∧
    (run ⟨id, some, fun _ _ => 0, bboxIntersects⟩ (init : CanvasScene ℚ)
      [.setMode .Line, .click ⟨0, 0⟩, .click ⟨100, 0⟩, .setMode .Distance, .click ⟨50, 0⟩,
       .click ⟨50, 50⟩, .setMode .Distance, .click ⟨50, 30⟩]).measureItems.map
        (fun r => (r.type, r.graphicsItem))
      = [(0, .line ⟨⟨0, 0⟩, ⟨100, 0⟩⟩), (2, .line ⟨⟨50, 50⟩, ⟨50, 0⟩⟩)] ∧
    bboxIntersects (⟨50 - 5, 30 - 5, 10, 10⟩ : QRectF ℚ) ⟨⟨0, 0⟩, ⟨100, 0⟩⟩ = false := by
  have hproj : projPoint (⟨⟨0, 0⟩, ⟨100, 0⟩⟩ : QLineF ℚ) ⟨50, 50⟩ = ⟨50, 0⟩ := by
    norm_num [projPoint]
  refine ⟨?_, ?_, ?_, ?_⟩
  · norm_num [run, step, setMode, mousePressEvent, emit, finishLine, finishDistance, init,
      lineItems, measureLineItems, bboxIntersects, hproj]
  · norm_num [run, step, setMode, mousePressEvent, emit, finishLine, finishDistance, init,
      lineItems, measureLineItems, bboxIntersects, hproj]
  · norm_num [run, step, setMode, mousePressEvent, emit, finishLine, finishDistance, init,
      lineItems, measureLineItems, bboxIntersects, hproj]
  · norm_num [bboxIntersects]

end Properties

end Measure
